import Mathlib

/-!
A shallow embedding of `src/multi_uio.c`.

The driver splits one IVSHMEM PCI device into `num_uios` UIO endpoints.
This file embeds

* `parse_region_config` (the `region_config` module parameter parser),
* the table lookup at the start of `probe`,
* the slice computation, the registration loop and the unwinding labels of
  `probe`, also in a variant where allocations may return NULL,
* `remove`, `irqhandler` and `ivshmem_init`,

over an explicit model of the kernel services they call, and proves
properties of these definitions.

Conventions.  C strings are `List Char` (the characters before the
terminating NUL).  `int` values are `Int`, `unsigned long` values are `Nat`
reduced `% 2 ^ 64` where the C arithmetic could wrap.  Pointers to the
objects the driver allocates are represented by the role of the object
(`Res`), indexed by the endpoint it belongs to.
-/

namespace MultiUio

/-! ## Constants -/

/-- Models `#define MAX_UIO_PER_DEV 5` -/
def MAX_UIO_PER_DEV : Int := 5

/-- Models `#define MAX_IVSHMEM_REGION 10`, which is `ARRAY_SIZE(configs)`. -/
def MAX_IVSHMEM_REGION : Nat := 10

/-- Errno `EINVAL`. -/
def EINVAL : Int := 22

/-- Errno `ENOMEM`. -/
def ENOMEM : Int := 12

/-- Errno `ENODEV`. -/
def ENODEV : Int := 19

/-- Errno `ENOSPC`, what `pci_alloc_irq_vectors` reports when too few vectors exist. -/
def ENOSPC : Int := 28

/-! ## File-scope state: `configs[]` and `num_configs` -/

/-- Models `struct ivshmem_region_config`. -/
structure ivshmem_region_config where
  region_id : Int
  num_uios : Int
  deriving DecidableEq, Repr

/-- The statics `configs[MAX_IVSHMEM_REGION]` and `num_configs`. -/
structure Globals where
  configs : List ivshmem_region_config
  num_configs : Nat
  deriving DecidableEq, Repr

/-- Zero-initialised statics, the state in which the module is loaded. -/
def Globals.init : Globals :=
  ⟨List.replicate MAX_IVSHMEM_REGION ⟨0, 0⟩, 0⟩

/-- The table a lookup can see: the first `num_configs` entries of `configs`. -/
def Globals.table (g : Globals) : List ivshmem_region_config :=
  g.configs.take g.num_configs

/-! ## Kernel string helpers used by `parse_region_config` -/

/-- Split a string at the first occurrence of `c`: the part before it and
the part after it, or `none` when `c` does not occur (`strchr` returning
NULL).  Overwriting the found character with NUL, as the driver does, leaves
exactly these two strings. -/
def strchr_split (c : Char) : List Char → Option (List Char × List Char)
  | [] => none
  | x :: xs =>
    if x = c then some ([], xs)
    else
      match strchr_split c xs with
      | none => none
      | some (before, after) => some (x :: before, after)

/-- Models `strsep(&stringp, delim)` for a one-character delimiter: the returned
token and the new value of `*stringp` (`none` is NULL). -/
def strsep (stringp : Option (List Char)) (delim : Char) :
    Option (List Char) × Option (List Char) :=
  match stringp with
  | none => (none, none)
  | some s =>
    match strchr_split delim s with
    | none => (some s, none)
    | some (tok, rest) => (some tok, some rest)

/-- Value of a decimal digit character, `none` for any other character. -/
def digit_val (c : Char) : Option Nat :=
  if '0'.toNat ≤ c.toNat ∧ c.toNat ≤ '9'.toNat then some (c.toNat - '0'.toNat) else none

/-- Models `_parse_integer` of `lib/kstrtox.c` in base 10: consume the leading
decimal digits, returning the accumulated value, the number of digits
consumed and the unconsumed rest.  The value is kept exact here; the
overflow flag of the C code is raised exactly when it exceeds
`ULLONG_MAX`, which `_kstrtoull` checks. -/
def _parse_integer : List Char → Nat → Nat → Nat × Nat × List Char
  | [], res, rv => (res, rv, [])
  | c :: s, res, rv =>
    match digit_val c with
    | none => (res, rv, c :: s)
    | some val => _parse_integer s (res * 10 + val) (rv + 1)

/-- Models `_kstrtoull(s, 10, &res)`: at least one digit, no overflow of
`unsigned long long`, then an optional single newline, then the end of the
string. -/
def _kstrtoull (s : List Char) : Option Nat :=
  match _parse_integer s 0 0 with
  | (res, rv, rest) =>
    if 2 ^ 64 ≤ res then none
    else if rv = 0 then none
    else
      let rest := match rest with
        | '\n' :: r => r
        | r => r
      if rest ≠ [] then none else some res

/-- Models `kstrtoull(s, 10, &res)`: one optional leading plus sign. -/
def kstrtoull (s : List Char) : Option Nat :=
  match s with
  | '+' :: r => _kstrtoull r
  | _ => _kstrtoull s

/-- Models `kstrtoll(s, 10, &res)`: an optional leading minus sign, and the result
must fit `long long`. -/
def kstrtoll (s : List Char) : Option Int :=
  match s with
  | '-' :: r =>
    match _kstrtoull r with
    | none => none
    | some tmp => if 2 ^ 63 < tmp then none else some (-(tmp : Int))
  | _ =>
    match kstrtoull s with
    | none => none
    | some tmp => if 2 ^ 63 ≤ tmp then none else some (tmp : Int)

/-- Models `kstrtoint(s, 10, &res)`: `none` stands for a non-zero return value
(`-EINVAL` or `-ERANGE`), `some v` for return value 0 with `*res = v`. -/
def kstrtoint (s : List Char) : Option Int :=
  match kstrtoll s with
  | none => none
  | some tmp => if tmp < -(2 ^ 31) ∨ 2 ^ 31 ≤ tmp then none else some tmp

/-! ## `parse_region_config` -/

/-- How the `while` loop of `parse_region_config` is left. -/
inductive ParseLoop where
  /-- The loop condition became false with `i` entries stored. -/
  | done (i : Nat) (configs : List ivshmem_region_config)
  /-- A `goto error`. -/
  | error (configs : List ivshmem_region_config)
  deriving DecidableEq, Repr

/-- The `while (entry && i < ARRAY_SIZE(configs))` loop, lines 88-130.
The first argument is `ARRAY_SIZE(configs) - i`, the number of free slots;
`entry` and `config_copy` are the two pointers (`none` is NULL). -/
def parse_loop : Nat → Nat → Option (List Char) → Option (List Char) →
    List ivshmem_region_config → ParseLoop
  | 0, i, _, _, configs => .done i configs
  | _ + 1, i, none, _, configs => .done i configs
  | slots + 1, i, some entry, config_copy, configs =>
    -- while (*entry == ' ') entry++;
    let entry := entry.dropWhile (· = ' ')
    -- colon = strchr(entry, ':');
    match strchr_split ':' entry with
    | none => .error configs
    | some (dev_str, num_str) =>
      match kstrtoint dev_str, kstrtoint num_str with
      | some region_id, some num_uios =>
        if num_uios < 1 ∨ num_uios > MAX_UIO_PER_DEV then .error configs
        else
          let configs := configs.set i ⟨region_id, num_uios⟩
          let next := strsep config_copy ','
          parse_loop slots (i + 1) next.1 next.2 configs
      | _, _ => .error configs

/-- Models `parse_region_config()`.  `region_config` is the module parameter
(`none` is a NULL pointer), `kstrdup_ok` tells whether `kstrdup` can
allocate the copy.  Returns the C return value and the new statics. -/
def parse_region_config (region_config : Option (List Char)) (kstrdup_ok : Bool)
    (g : Globals) : Int × Globals :=
  match region_config with
  | none => (0, g)
  | some [] => (0, g)
  | some text =>
    if !kstrdup_ok then (-ENOMEM, g)
    else
      let first := strsep (some text) ','
      match parse_loop MAX_IVSHMEM_REGION 0 first.1 first.2 g.configs with
      | .done i configs => (0, ⟨configs, i⟩)
      | .error configs => (-EINVAL, ⟨configs, g.num_configs⟩)

/-! ## The table lookup at the start of `probe` -/

/-- The `for (i = 0; i < num_configs; i++)` loop of `probe`, lines 147-154.
The first argument is `num_configs - i`.  The result is the final value of
the local `num_uios`, which starts as 1. -/
def probe_lookup (configs : List ivshmem_region_config) (region_id : Int) : Nat → Nat → Int
  | 0, _ => 1
  | rem + 1, i =>
    if (configs.getD i ⟨0, 0⟩).region_id = region_id then (configs.getD i ⟨0, 0⟩).num_uios
    else probe_lookup configs region_id rem (i + 1)

/-! ## Kernel services seen by `probe` and `remove` -/

/-- The objects the driver obtains from the kernel for one device.  A C
pointer to such an object is represented by the object itself: the pointer
stored in `ivshmem->uios[i].uinfo` is `uinfo i`, its `name` is `name i`, its
`mem[0].internal_addr` is `mapping i`. -/
inductive Res where
  /-- The device record, `kzalloc(sizeof(struct ivshmem))`. -/
  | ivshmem
  /-- The endpoint array, `kcalloc(num_uios, sizeof(struct ivshmem_uio))`. -/
  | uios
  /-- The device being enabled, `pci_enable_device`. -/
  | enabled
  /-- The claimed regions, `pci_request_regions`. -/
  | regions
  /-- The `n` MSI-X vectors granted by `pci_alloc_irq_vectors`. -/
  | irq_vectors (n : Nat)
  /-- The endpoint descriptor, `kzalloc(sizeof(struct uio_info))` of iteration `i`. -/
  | uinfo (i : Nat)
  /-- The endpoint name, `kasprintf("ivshmem%d", i)`. -/
  | name (i : Nat)
  /-- The register-region mapping, `pci_ioremap_bar(pdev, BAR0)` of iteration `i`. -/
  | mapping (i : Nat)
  /-- The registration of endpoint `i` with UIO, `uio_register_device`. -/
  | registration (i : Nat)
  deriving DecidableEq, Repr

/-- One kernel call as it appears in the call log. -/
inductive Call where
  /-- An acquiring call on a resource, with its success. -/
  | acquire (r : Res) (ok : Bool)
  /-- A releasing call on a resource. -/
  | release (r : Res)
  /-- The call `pci_free_irq_vectors(pdev)`. -/
  | pci_free_irq_vectors
  /-- The call `pci_set_master(pdev)`. -/
  | pci_set_master
  /-- The call `pci_set_drvdata(pdev, ivshmem)`. -/
  | pci_set_drvdata
  deriving DecidableEq, Repr

/-- One element of `uio_info.mem[]`. -/
structure uio_mem where
  memtype : Nat
  name : String
  addr : Nat
  size : Nat
  deriving DecidableEq, Repr

/-- The value fields of `struct uio_info` that `probe` fills in.  The
pointer fields `name`, `priv`, `handler` and `mem[0].internal_addr` are
determined by the endpoint index (see `Res`). -/
structure uio_info where
  version : String
  mem0 : uio_mem
  mem1 : uio_mem
  /-- Index of the MSI-X vector whose IRQ number `pci_irq_vector` returned. -/
  irq : Nat
  irq_flags : Nat
  deriving DecidableEq, Repr

/-- Models `struct ivshmem_uio`, with the descriptor it points to. -/
structure ivshmem_uio where
  uinfo : uio_info
  bar2_offset : Nat
  deriving DecidableEq, Repr

/-- Models `struct ivshmem`: `uios` lists the array slots filled so far. -/
structure ivshmem where
  uios : List ivshmem_uio
  num_uios : Int
  deriving DecidableEq, Repr

/-- What the kernel knows about the device and the driver's holdings. -/
structure Kernel where
  /-- The resource ledger: what the driver currently holds. -/
  held : List Res
  /-- Every kernel call made so far, oldest first. -/
  log : List Call
  /-- Number of releasing calls made on something that was not held. -/
  bad_release : Nat
  /-- Bus mastering is enabled. -/
  master : Bool
  /-- The driver data attached to the device. -/
  drvdata : Option ivshmem
  deriving DecidableEq, Repr

/-- The kernel state before the driver has touched the device. -/
def Kernel.init : Kernel := ⟨[], [], 0, false, none⟩

/-- Indices of the endpoints currently registered with UIO. -/
def Kernel.registered (s : Kernel) : List Nat :=
  s.held.filterMap fun r => match r with
    | .registration i => some i
    | _ => none

/-- The device as the PCI core presents it. -/
structure pci_dev where
  subsystem_device : Nat
  bar0_start : Nat
  bar0_len : Nat
  bar2_start : Nat
  bar2_len : Nat
  deriving DecidableEq, Repr

/-- The platform and the outcomes of the fallible kernel calls.  Memory
allocations and `pci_ioremap_bar` are taken to succeed: the driver uses
their results unchecked. -/
structure Env where
  /-- The value of `PAGE_SHIFT`: `PAGE_SIZE` is `2 ^ page_shift`. -/
  page_shift : Nat
  /-- True when `pci_enable_device` returns 0. -/
  enable_ok : Bool
  /-- True when `pci_request_regions` returns 0. -/
  regions_ok : Bool
  /-- Number of MSI-X vectors the device can be granted. -/
  irq_avail : Nat
  /-- True when `uio_register_device` returns 0 for endpoint `i`. -/
  register_ok : Nat → Bool

/-- A successful acquisition: the resource enters the ledger. -/
def acquire (r : Res) (s : Kernel) : Kernel :=
  { s with held := r :: s.held, log := s.log ++ [.acquire r true] }

/-- A failed acquisition: only the call is logged. -/
def acquire_fail (r : Res) (s : Kernel) : Kernel :=
  { s with log := s.log ++ [.acquire r false] }

/-- A release: the resource leaves the ledger; releasing what is not held
is counted in `bad_release`. -/
def release (r : Res) (s : Kernel) : Kernel :=
  if r ∈ s.held then { s with held := s.held.erase r, log := s.log ++ [.release r] }
  else { s with bad_release := s.bad_release + 1, log := s.log ++ [.release r] }

/-- Models `kzalloc`, `kcalloc` and `kasprintf`, identified by the object allocated. -/
def kmalloc (r : Res) (s : Kernel) : Kernel := acquire r s

/-- Models `kfree`. -/
def kfree (r : Res) (s : Kernel) : Kernel := release r s

/-- Models `pci_enable_device(pdev)`: the return value and the new state. -/
def pci_enable_device (env : Env) (s : Kernel) : Int × Kernel :=
  if env.enable_ok then (0, acquire .enabled s) else (-ENODEV, acquire_fail .enabled s)

/-- Models `pci_disable_device(pdev)`, which also clears bus mastering. -/
def pci_disable_device (s : Kernel) : Kernel :=
  { release .enabled s with master := false }

/-- Models `pci_request_regions(pdev, "ivshmem")`. -/
def pci_request_regions (env : Env) (s : Kernel) : Int × Kernel :=
  if env.regions_ok then (0, acquire .regions s) else (-16, acquire_fail .regions s)

/-- Models `pci_release_regions(pdev)`. -/
def pci_release_regions (s : Kernel) : Kernel := release .regions s

/-- Models `pci_alloc_irq_vectors(pdev, min_vecs, max_vecs, PCI_IRQ_MSIX)`: grants
between `min_vecs` and `max_vecs` vectors and returns their number, or
grants none and returns `-ENOSPC`. -/
def pci_alloc_irq_vectors (env : Env) (min_vecs max_vecs : Int) (s : Kernel) : Int × Kernel :=
  if 1 ≤ min_vecs ∧ min_vecs ≤ max_vecs ∧ min_vecs ≤ env.irq_avail then
    let n := min max_vecs.toNat env.irq_avail
    ((n : Int), acquire (.irq_vectors n) s)
  else (-ENOSPC, acquire_fail (.irq_vectors min_vecs.toNat) s)

/-- Models `pci_free_irq_vectors(pdev)`: gives back whatever vectors are held. -/
def pci_free_irq_vectors (s : Kernel) : Kernel :=
  { s with
    held := s.held.filter fun r => match r with
      | .irq_vectors _ => false
      | _ => true
    log := s.log ++ [.pci_free_irq_vectors] }

/-- Models `pci_ioremap_bar(pdev, BAR0)` in iteration `i`. -/
def pci_ioremap_bar (i : Nat) (s : Kernel) : Kernel := acquire (.mapping i) s

/-- Models `iounmap` of the mapping made in iteration `i`. -/
def iounmap (i : Nat) (s : Kernel) : Kernel := release (.mapping i) s

/-- Models `uio_register_device(&pdev->dev, uios[i].uinfo)`. -/
def uio_register_device (env : Env) (i : Nat) (s : Kernel) : Int × Kernel :=
  if env.register_ok i then (0, acquire (.registration i) s)
  else (-EINVAL, acquire_fail (.registration i) s)

/-- Models `uio_unregister_device(uios[i].uinfo)`. -/
def uio_unregister_device (i : Nat) (s : Kernel) : Kernel := release (.registration i) s

/-- Models `pci_set_master(pdev)`. -/
def pci_set_master (s : Kernel) : Kernel :=
  { s with master := true, log := s.log ++ [.pci_set_master] }

/-- Models `pci_set_drvdata(pdev, ivshmem)`. -/
def pci_set_drvdata (iv : ivshmem) (s : Kernel) : Kernel :=
  { s with drvdata := some iv, log := s.log ++ [.pci_set_drvdata] }

/-! ## `probe` -/

/-- Conversion of an `int` to `unsigned long`. -/
def u64 (x : Int) : Nat := (x % 2 ^ 64).toNat

/-- Models `PAGE_SIZE`. -/
def PAGE_SIZE (env : Env) : Nat := 2 ^ env.page_shift

/-- Models `PAGE_MASK`, that is `~(PAGE_SIZE - 1)` as an `unsigned long`. -/
def PAGE_MASK (env : Env) : Nat := 2 ^ 64 - PAGE_SIZE env

/-- Models `(len + PAGE_SIZE - 1) & PAGE_MASK`, lines 169 and 188. -/
def page_round (env : Env) (len : Nat) : Nat :=
  ((len + PAGE_SIZE env - 1) % 2 ^ 64) &&& PAGE_MASK env

/-- Models `uio->bar2_offset = i * (bar2_size / num_uios)`, line 194. -/
def slice_offset (bar2_size : Nat) (num_uios : Int) (i : Nat) : Nat :=
  (i * (bar2_size / u64 num_uios)) % 2 ^ 64

/-- Models `uio->uinfo->mem[1].size = bar2_size / num_uios`, line 196. -/
def slice_size (bar2_size : Nat) (num_uios : Int) : Nat :=
  bar2_size / u64 num_uios

/-- The endpoint descriptor built in iteration `i`, lines 180-200. -/
def make_uio (env : Env) (pdev : pci_dev) (bar2_size : Nat) (num_uios : Int) (i : Nat) :
    ivshmem_uio :=
  let bar2_offset := slice_offset bar2_size num_uios i
  { uinfo :=
      { version := "0.0.3"
        mem0 := ⟨1, "registers", pdev.bar0_start, page_round env pdev.bar0_len⟩
        mem1 := ⟨1, "shmem", (pdev.bar2_start + bar2_offset) % 2 ^ 64,
          slice_size bar2_size num_uios⟩
        irq := i
        irq_flags := 0 }
    bar2_offset := bar2_offset }

/-- The `for (i = 0; i < num_uios; i++)` loop, lines 178-207.  The first
argument is `num_uios - i`.  Returns the index at which
`uio_register_device` failed (`none` when the loop ran to its end), the
record and the kernel state. -/
def probe_loop (env : Env) (pdev : pci_dev) (bar2_size : Nat) (num_uios : Int) :
    Nat → Nat → ivshmem → Kernel → Option Nat × ivshmem × Kernel
  | 0, _, iv, s => (none, iv, s)
  | rem + 1, i, iv, s =>
    let s := kmalloc (.uinfo i) s
    let s := kmalloc (.name i) s
    let s := pci_ioremap_bar i s
    let iv := { iv with uios := iv.uios ++ [make_uio env pdev bar2_size num_uios i] }
    let r := uio_register_device env i s
    if r.1 ≠ 0 then (some i, iv, r.2)
    else probe_loop env pdev bar2_size num_uios rem (i + 1) iv r.2

/-- Label `error:`, lines 222-225. -/
def probe_error (s : Kernel) : Int × Kernel :=
  let s := kfree .uios s
  let s := kfree .ivshmem s
  (-ENODEV, s)

/-- Label `error_release:`, lines 219-221, falling through to `error:`. -/
def probe_error_release (s : Kernel) : Int × Kernel :=
  let s := pci_release_regions s
  let s := pci_disable_device s
  probe_error s

/-- The `while (--i >= 0)` loop of label `error_uio:`, lines 214-218,
entered with the given value of `i`. -/
def probe_unwind : Nat → Kernel → Kernel
  | 0, s => s
  | i + 1, s =>
    let s := uio_unregister_device i s
    let s := kfree (.name i) s
    let s := kfree (.uinfo i) s
    probe_unwind i s

/-- Label `error_uio:`, falling through to `error_release:`. -/
def probe_error_uio (i : Nat) (s : Kernel) : Int × Kernel :=
  probe_error_release (probe_unwind i s)

/-- Models `probe(pdev, id)`: the return value and the new kernel state. -/
def probe (g : Globals) (env : Env) (pdev : pci_dev) (s : Kernel) : Int × Kernel :=
  let region_id : Int := pdev.subsystem_device
  let num_uios := probe_lookup g.configs region_id g.num_configs 0
  let s := kmalloc .ivshmem s
  let s := kmalloc .uios s
  let iv : ivshmem := ⟨[], num_uios⟩
  let r := pci_enable_device env s
  if r.1 ≠ 0 then probe_error r.2
  else
    let r := pci_request_regions env r.2
    if r.1 ≠ 0 then probe_error r.2
    else
      let bar2_size := page_round env pdev.bar2_len
      let r := pci_alloc_irq_vectors env num_uios num_uios r.2
      if r.1 < num_uios then probe_error_release r.2
      else
        match probe_loop env pdev bar2_size num_uios num_uios.toNat 0 iv r.2 with
        | (some i, _, s) => probe_error_uio i s
        | (none, iv, s) =>
          let s := pci_set_master s
          let s := pci_set_drvdata iv s
          (0, s)

/-! ## `remove` -/

/-- The `for` loop of `remove`, lines 231-237; the first argument is
`ivshmem->num_uios - i`. -/
def remove_loop : Nat → Nat → Kernel → Kernel
  | 0, _, s => s
  | rem + 1, i, s =>
    let s := uio_unregister_device i s
    let s := iounmap i s
    let s := kfree (.name i) s
    let s := kfree (.uinfo i) s
    remove_loop rem (i + 1) s

/-- Models `remove(pdev)`.  The PCI core calls it only for a device whose `probe`
returned 0, so `pci_get_drvdata` yields the published record. -/
def remove (s : Kernel) : Kernel :=
  match s.drvdata with
  | none => s
  | some iv =>
    let s := remove_loop iv.num_uios.toNat 0 s
    let s := pci_free_irq_vectors s
    let s := pci_release_regions s
    let s := pci_disable_device s
    let s := kfree .uios s
    kfree .ivshmem s

/-- An environment in which every call succeeds, with 4 KiB pages. -/
def Env.good : Env := ⟨12, true, true, 64, fun _ => true⟩

/-- A device with a 256-byte register BAR and a 1 MiB shared-memory BAR. -/
def pci_dev.sample (key : Nat) : pci_dev := ⟨key, 0xfe000000, 256, 0xfd000000, 0x100000⟩

/-! ## Definitions used to state the properties -/

/-- The specification's `lookup`, in its words: the endpoint count of the
first entry of the table whose key matches, 1 when there is none. -/
def lookup_spec (table : List ivshmem_region_config) (key : Int) : Int :=
  match table.find? (fun e => e.region_id = key) with
  | some e => e.num_uios
  | none => 1

/-- The private slice `(offset, size)` that `probe` gives endpoint `i`. -/
def probe_slice (env : Env) (pdev : pci_dev) (bar2_size : Nat) (num_uios : Int) (i : Nat) :
    Nat × Nat :=
  ((make_uio env pdev bar2_size num_uios i).bar2_offset,
    (make_uio env pdev bar2_size num_uios i).uinfo.mem1.size)

/-- Byte `b` of the shared region lies in the slice `sl`. -/
def in_slice (sl : Nat × Nat) (b : Nat) : Prop := sl.1 ≤ b ∧ b < sl.1 + sl.2

/-- What iteration `i` of the registration loop leaves in the ledger when
it completes, newest first. -/
def endpoint_res (i : Nat) : List Res := [.registration i, .mapping i, .name i, .uinfo i]

/-- Ledger entries left by the completed iterations `i, ..., i + rem - 1`,
newest first. -/
def endpoints_res : Nat → Nat → List Res
  | _, 0 => []
  | i, rem + 1 => endpoints_res (i + 1) rem ++ endpoint_res i

/-- The kernel calls of iteration `i` of the registration loop, `ok` being
the success of `uio_register_device`. -/
def endpoint_calls (i : Nat) (ok : Bool) : List Call :=
  [.acquire (.uinfo i) true, .acquire (.name i) true, .acquire (.mapping i) true,
    .acquire (.registration i) ok]

/-- The kernel calls of the completed iterations `i, ..., i + rem - 1`. -/
def endpoints_calls : Nat → Nat → List Call
  | _, 0 => []
  | i, rem + 1 => endpoint_calls i true ++ endpoints_calls (i + 1) rem

/-- The register-region mappings of endpoints `i - 1, ..., 0`. -/
def mappings_res : Nat → List Res
  | 0 => []
  | i + 1 => .mapping i :: mappings_res i

/-- The kernel calls of the `error_uio` loop entered with `i`. -/
def unwind_calls : Nat → List Call
  | 0 => []
  | i + 1 => [.release (.registration i), .release (.name i), .release (.uinfo i)] ++
      unwind_calls i

/-- The kernel calls of iteration `i` of the loop of `remove`. -/
def remove_calls (i : Nat) : List Call :=
  [.release (.registration i), .release (.mapping i), .release (.name i), .release (.uinfo i)]

/-- The kernel calls `probe` makes before the registration loop when they
all succeed. -/
def setup_calls (n : Nat) : List Call :=
  [.acquire .ivshmem true, .acquire .uios true, .acquire .enabled true,
    .acquire .regions true, .acquire (.irq_vectors n) true]

/-- What `probe` holds when it enters the registration loop. -/
def setup_res (n : Nat) : List Res := [.irq_vectors n, .regions, .enabled, .uios, .ivshmem]

/-- Index of the endpoint a call tries to register, if it is such a call. -/
def Call.register_attempt : Call → Option Nat
  | .acquire (.registration i) _ => some i
  | _ => none

/-- Index of the endpoint a call unregisters, if it is such a call. -/
def Call.unregister : Call → Option Nat
  | .release (.registration i) => some i
  | _ => none

/-- The comma-separated items of a non-empty text, as successive calls of
`strsep` produce them: every comma ends an item, so a trailing comma is
followed by an empty item. -/
def items : List Char → List (List Char)
  | [] => [[]]
  | c :: s =>
    if c = ',' then [] :: items s
    else
      match items s with
      | [] => [[c]]
      | it :: its => (c :: it) :: its

/-- The items of a configuration text; the empty text has none. -/
def config_items (text : List Char) : List (List Char) :=
  match text with
  | [] => []
  | _ => items text

/-- The key side of an item: what stands between the leading spaces and the
first colon. -/
def item_key (item : List Char) : List Char :=
  (item.dropWhile (· = ' ')).takeWhile (· ≠ ':')

/-- The count side of an item: what follows the first colon. -/
def item_count (item : List Char) : List Char :=
  ((item.dropWhile (· = ' ')).dropWhile (· ≠ ':')).drop 1

/-- An item is malformed, in the words of the specification: it has no
colon, or more than one colon, or a side that `kstrtoint` rejects, or a
count outside 1..5. -/
def malformed (item : List Char) : Bool :=
  decide ((item.dropWhile (· = ' ')).count ':' = 0) ||
  decide (1 < (item.dropWhile (· = ' ')).count ':') ||
  (kstrtoint (item_key item)).isNone ||
  match kstrtoint (item_count item) with
  | none => true
  | some n => decide (n < 1) || decide (5 < n)

/-- The entry a well-formed item denotes. -/
def item_entry (item : List Char) : ivshmem_region_config :=
  ⟨(kstrtoint (item_key item)).getD 0, (kstrtoint (item_count item)).getD 0⟩

/-- One pass through the body of the `while` loop of `parse_region_config`
for the item `entry`: the entry to store, or `none` for `goto error`. -/
def parse_entry (entry : List Char) : Option ivshmem_region_config :=
  match strchr_split ':' (entry.dropWhile (· = ' ')) with
  | none => none
  | some (dev_str, num_str) =>
    match kstrtoint dev_str, kstrtoint num_str with
    | some region_id, some num_uios =>
      if num_uios < 1 ∨ num_uios > MAX_UIO_PER_DEV then none else some ⟨region_id, num_uios⟩
    | _, _ => none

/-- The `while` loop of `parse_region_config` run over a list of items. -/
def store_items : Nat → Nat → List (List Char) → List ivshmem_region_config → ParseLoop
  | 0, i, _, configs => .done i configs
  | _ + 1, i, [], configs => .done i configs
  | slots + 1, i, it :: its, configs =>
    match parse_entry it with
    | none => .error configs
    | some e => store_items slots (i + 1) its (configs.set i e)

/-- Store the entries `es` in the slots `i, i + 1, ...` of `configs`. -/
def write_entries : List ivshmem_region_config → Nat → List ivshmem_region_config →
    List ivshmem_region_config
  | configs, _, [] => configs
  | configs, i, e :: es => write_entries (configs.set i e) (i + 1) es

/-- The character of a decimal digit. -/
def digit_char (d : Nat) : Char := Char.ofNat ('0'.toNat + d)

/-- A natural number written in decimal, most significant digit first. -/
def decimal_nat (n : Nat) : List Char :=
  if n = 0 then ['0'] else (Nat.digits 10 n).reverse.map digit_char

/-- An integer written in decimal, with a minus sign when negative. -/
def decimal (k : Int) : List Char :=
  if k < 0 then '-' :: decimal_nat k.natAbs else decimal_nat k.natAbs

/-- An entry written as decimal key, colon, decimal count. -/
def render_entry (e : ivshmem_region_config) : List Char :=
  decimal e.region_id ++ ':' :: decimal e.num_uios

/-- The entries written as items joined by commas. -/
def render : List ivshmem_region_config → List Char
  | [] => []
  | [e] => render_entry e
  | e :: e' :: es => render_entry e ++ ',' :: render (e' :: es)

/-! ## `irqhandler` -/

/-- The two values of `irqreturn_t` the handler returns. -/
inductive irqreturn where
  | IRQ_NONE
  | IRQ_HANDLED
  deriving DecidableEq, Repr

/-- What an invocation of the handler sees of the device. -/
structure IrqEnv where
  /-- The flag `pdev->msix_enabled`. -/
  msix_enabled : Bool
  /-- The value of the device register at byte `offset` of a mapping, as
  `readl(mapping + offset)` returns it. -/
  readl : Res → Nat → Nat

/-- Models `irqhandler(irq, uinfo)` for the descriptor of endpoint `i`, whose
`mem[0].internal_addr` is `mapping i`: the return value, the kernel state
after the call and the register reads made, as (mapping, offset) pairs.
The parameter `irq` is not used by the C code. -/
def irqhandler (hw : IrqEnv) (i : Nat) (s : Kernel) : irqreturn × Kernel × List (Res × Nat) :=
  if hw.msix_enabled then (.IRQ_HANDLED, s, [])
  else
    -- u32 val = readl(uinfo->mem[0].internal_addr + 0x04);
    let val := hw.readl (.mapping i) 0x04 % 2 ^ 32
    if val &&& 0x1 = 0 then (.IRQ_NONE, s, [(.mapping i, 0x04)])
    else (.IRQ_HANDLED, s, [(.mapping i, 0x04)])

/-! ## `ivshmem_init` -/

/-- The outcome of module initialisation. -/
structure InitResult where
  /-- The return value of `ivshmem_init`. -/
  ret : Int
  /-- The statics after the call. -/
  globals : Globals
  /-- Whether `pci_register_driver` was called. -/
  register_called : Bool
  /-- Whether the PCI driver is registered afterwards, so that devices can
  be probed. -/
  driver_registered : Bool
  deriving DecidableEq, Repr

/-- Models `ivshmem_init()`, lines 258-266.  `register_ret` is what
`pci_register_driver(&ivshmem_driver)` returns when it is called; the driver
is registered when that value is 0. -/
def ivshmem_init (region_config : Option (List Char)) (kstrdup_ok : Bool) (register_ret : Int)
    (g : Globals) : InitResult :=
  let r := parse_region_config region_config kstrdup_ok g
  if r.1 ≠ 0 then ⟨r.1, r.2, false, false⟩
  else ⟨register_ret, r.2, true, decide (register_ret = 0)⟩

/-! ## `probe` with allocations that may fail -/

/-- How a run of `probe` ends when allocations may return NULL. -/
inductive ProbeEnd where
  /-- The function returns this value. -/
  | returned (ret : Int)
  /-- The function reads or writes memory through the NULL pointer that the
  allocation of `r` returned. -/
  | null_access (r : Res)
  deriving DecidableEq, Repr

/-- How the registration loop ends when allocations may return NULL. -/
inductive LoopEnd where
  /-- The loop condition became false. -/
  | completed
  /-- The call `uio_register_device` failed at this index (`goto error_uio`). -/
  | register_failed (i : Nat)
  /-- A store through the NULL result of the allocation of `r`. -/
  | null_access (r : Res)
  deriving DecidableEq, Repr

/-- An allocation (`kzalloc`, `kcalloc`, `kasprintf`) that returns NULL when
`alloc_ok r` is false. -/
def kmalloc_try (alloc_ok : Res → Bool) (r : Res) (s : Kernel) : Kernel :=
  if alloc_ok r then acquire r s else acquire_fail r s

/-- Models `kfree` of a pointer that is NULL when `alloc_ok r` is false:
`kfree(NULL)` does nothing. -/
def kfree_try (alloc_ok : Res → Bool) (r : Res) (s : Kernel) : Kernel :=
  if alloc_ok r then kfree r s else s

/-- The registration loop of `probe`, lines 178-207, with allocations that
may fail.  Line 180 stores the new descriptor in `uios[i]`, line 181 stores
the new name in the descriptor; neither pointer is checked.  A descriptor
without name is rejected by `uio_register_device` with `-EINVAL`. -/
def probe_loop_alloc (alloc_ok : Res → Bool) (env : Env) (pdev : pci_dev) (bar2_size : Nat)
    (num_uios : Int) : Nat → Nat → ivshmem → Kernel → LoopEnd × ivshmem × Kernel
  | 0, _, iv, s => (.completed, iv, s)
  | rem + 1, i, iv, s =>
    -- uio->uinfo = kzalloc(...), with uio = &ivshmem->uios[i]
    let s := kmalloc_try alloc_ok (.uinfo i) s
    if !alloc_ok .uios then (.null_access .uios, iv, s)
    else
      -- uio->uinfo->name = kasprintf(...)
      let s := kmalloc_try alloc_ok (.name i) s
      if !alloc_ok (.uinfo i) then (.null_access (.uinfo i), iv, s)
      else
        let s := pci_ioremap_bar i s
        let iv := { iv with uios := iv.uios ++ [make_uio env pdev bar2_size num_uios i] }
        let r :=
          if alloc_ok (.name i) then uio_register_device env i s
          else (-EINVAL, acquire_fail (.registration i) s)
        if r.1 ≠ 0 then (.register_failed i, iv, r.2)
        else probe_loop_alloc alloc_ok env pdev bar2_size num_uios rem (i + 1) iv r.2

/-- Label `error:` when `ivshmem->uios` may be NULL. -/
def probe_error_alloc (alloc_ok : Res → Bool) (s : Kernel) : ProbeEnd × Kernel :=
  let s := kfree_try alloc_ok .uios s
  let s := kfree .ivshmem s
  (.returned (-ENODEV), s)

/-- Label `error_release:` when `ivshmem->uios` may be NULL. -/
def probe_error_release_alloc (alloc_ok : Res → Bool) (s : Kernel) : ProbeEnd × Kernel :=
  let s := pci_release_regions s
  let s := pci_disable_device s
  probe_error_alloc alloc_ok s

/-- Models `probe(pdev, id)` with allocations that may return NULL
(`alloc_ok r` false).  Line 157 calls `kcalloc` and stores its result in the
device record without checking the record pointer. -/
def probe_alloc (alloc_ok : Res → Bool) (g : Globals) (env : Env) (pdev : pci_dev)
    (s : Kernel) : ProbeEnd × Kernel :=
  let region_id : Int := pdev.subsystem_device
  let num_uios := probe_lookup g.configs region_id g.num_configs 0
  let s := kmalloc_try alloc_ok .ivshmem s
  -- ivshmem->uios = kcalloc(...)
  let s := kmalloc_try alloc_ok .uios s
  if !alloc_ok .ivshmem then (.null_access .ivshmem, s)
  else
    let iv : ivshmem := ⟨[], num_uios⟩
    let r := pci_enable_device env s
    if r.1 ≠ 0 then probe_error_alloc alloc_ok r.2
    else
      let r := pci_request_regions env r.2
      if r.1 ≠ 0 then probe_error_alloc alloc_ok r.2
      else
        let bar2_size := page_round env pdev.bar2_len
        let r := pci_alloc_irq_vectors env num_uios num_uios r.2
        if r.1 < num_uios then probe_error_release_alloc alloc_ok r.2
        else
          match probe_loop_alloc alloc_ok env pdev bar2_size num_uios num_uios.toNat 0 iv r.2
            with
          | (.null_access x, _, s) => (.null_access x, s)
          | (.register_failed i, _, s) =>
            probe_error_release_alloc alloc_ok (probe_unwind i s)
          | (.completed, iv, s) =>
            let s := pci_set_master s
            let s := pci_set_drvdata iv s
            (.returned 0, s)

/-! ## Sanity checks of the embedding on concrete inputs -/

example : parse_region_config (some "4:5,7:2".toList) true Globals.init =
    (0, ⟨[⟨4, 5⟩, ⟨7, 2⟩] ++ List.replicate 8 ⟨0, 0⟩, 2⟩) := by decide

example : (parse_region_config (some "4:6".toList) true Globals.init).1 = -22 := by decide

example : (parse_region_config (some "abc:2".toList) true Globals.init).1 = -22 := by decide

example : (parse_region_config (some " -4:+5\n, 7:2".toList) true Globals.init).2.table =
    [⟨-4, 5⟩, ⟨7, 2⟩] := by decide

example : (probe ⟨[⟨4, 5⟩, ⟨7, 2⟩], 2⟩ Env.good (pci_dev.sample 7) Kernel.init).1 = 0 := by decide

example : (probe ⟨[⟨4, 5⟩, ⟨7, 2⟩], 2⟩ Env.good (pci_dev.sample 7) Kernel.init).2.held =
    [.registration 1, .mapping 1, .name 1, .uinfo 1, .registration 0, .mapping 0, .name 0,
      .uinfo 0, .irq_vectors 2, .regions, .enabled, .uios, .ivshmem] := by decide

example : (remove (probe ⟨[⟨4, 5⟩, ⟨7, 2⟩], 2⟩ Env.good (pci_dev.sample 7) Kernel.init).2).held
    = [] := by decide

example : (probe Globals.init { Env.good with register_ok := fun _ => false } (pci_dev.sample 7)
    Kernel.init).2.held = [.mapping 0, .name 0, .uinfo 0, .irq_vectors 1] := by decide

/-! ## The slices (lines 192-196) -/

theorem u64_natCast (n : Nat) (h : n < 2 ^ 64) : u64 (n : Int) = n := by
  unfold u64
  have : ((n : Int) % 2 ^ 64) = (n : Int) :=
    Int.emod_eq_of_lt (by positivity) (by exact_mod_cast h)
  rw [this]; simp

theorem slice_offset_eq (total n i : Nat) (ht : total < 2 ^ 64) (h5 : n ≤ 5)
    (hi : i < n) : slice_offset total n i = i * (total / n) := by
  unfold slice_offset
  rw [u64_natCast n (by omega)]
  apply Nat.mod_eq_of_lt
  have : i * (total / n) ≤ n * (total / n) := Nat.mul_le_mul_right _ (le_of_lt hi)
  have : n * (total / n) ≤ total := Nat.mul_div_le total n
  omega

theorem slice_size_eq (total n : Nat) (h5 : n ≤ 5) : slice_size total n = total / n := by
  unfold slice_size
  rw [u64_natCast n (by omega)]

theorem probe_slice_eq (env : Env) (pdev : pci_dev) (total n i : Nat) (ht : total < 2 ^ 64)
    (h5 : n ≤ 5) (hi : i < n) :
    probe_slice env pdev total n i = (i * (total / n), total / n) := by
  simp [probe_slice, make_uio, slice_offset_eq total n i ht h5 hi, slice_size_eq total n h5]

theorem slices_cover (total n b : Nat) :
    (∃ i, i < n ∧ i * (total / n) ≤ b ∧ b < i * (total / n) + total / n) ↔
      b < total - total % n := by
  have hdm : n * (total / n) + total % n = total := Nat.div_add_mod total n
  constructor
  · rintro ⟨i, hi, h2, h3⟩
    have : (i + 1) * (total / n) ≤ n * (total / n) := Nat.mul_le_mul_right _ hi
    have : (i + 1) * (total / n) = i * (total / n) + total / n := by ring
    omega
  · intro h
    have hq : 0 < total / n := by
      rcases Nat.eq_zero_or_pos (total / n) with h0 | h0
      · rw [h0] at hdm; omega
      · exact h0
    refine ⟨b / (total / n), ?_, ?_, ?_⟩
    · rw [Nat.div_lt_iff_lt_mul hq]; omega
    · rw [Nat.mul_comm]; exact Nat.mul_div_le b _
    · have := Nat.div_add_mod b (total / n)
      have := Nat.mod_lt b hq
      rw [Nat.mul_comm]; omega

/-- C6 (P4, partition coverage).  For every `unsigned long` total size and
every endpoint count `n` in 1..5 the slices computed in `probe` have size
`total / n` and offset `i * (total / n)`; they are ordered by offset,
contiguous, pairwise non-overlapping, their sizes sum to
`total / n * n ≤ total`, and the bytes covered by no slice are exactly the
last `total % n` bytes.  For total 100 and `n = 3` the slices are `{0,33}`,
`{33,33}`, `{66,33}` and byte 99 is in none of them. -/
theorem C6_partition_coverage (env : Env) (pdev : pci_dev) (total n : Nat)
    (ht : total < 2 ^ 64) (h1 : 1 ≤ n) (h5 : n ≤ 5) :
    (∀ i, i < n → probe_slice env pdev total n i = (i * (total / n), total / n)) ∧
    (∀ i j, i ≤ j → j < n →
      (probe_slice env pdev total n i).1 ≤ (probe_slice env pdev total n j).1) ∧
    (∀ i, i + 1 < n → (probe_slice env pdev total n (i + 1)).1 =
      (probe_slice env pdev total n i).1 + (probe_slice env pdev total n i).2) ∧
    (∀ i j, i < j → j < n → (probe_slice env pdev total n i).1 +
      (probe_slice env pdev total n i).2 ≤ (probe_slice env pdev total n j).1) ∧
    (((List.range n).map fun i => (probe_slice env pdev total n i).2).sum = total / n * n ∧
      total / n * n ≤ total) ∧
    (∀ b, b < total →
      ((¬ ∃ i, i < n ∧ in_slice (probe_slice env pdev total n i) b) ↔ total - total % n ≤ b)) ∧
    ((List.range 3).map (probe_slice env pdev 100 3) = [(0, 33), (33, 33), (66, 33)] ∧
      ∀ i, i < 3 → ¬ in_slice (probe_slice env pdev 100 3 i) 99) := by
  have key := fun i (hi : i < n) => probe_slice_eq env pdev total n i ht h5 hi
  refine ⟨key, ?_, ?_, ?_, ⟨?_, ?_⟩, ?_, ?_, ?_⟩
  · intro i j hij hj
    rw [key i (by omega), key j hj]
    exact Nat.mul_le_mul_right _ hij
  · intro i hi
    rw [key i (by omega), key (i + 1) hi]
    simp only []
    ring
  · intro i j hij hj
    rw [key i (by omega), key j hj]
    have : (i + 1) * (total / n) ≤ j * (total / n) := Nat.mul_le_mul_right _ hij
    have : (i + 1) * (total / n) = i * (total / n) + total / n := by ring
    simp only []
    omega
  · have : (List.range n).map (fun i => (probe_slice env pdev total n i).2) =
        (List.range n).map (fun _ => total / n) := by
      apply List.map_congr_left
      intro i hi
      rw [key i (List.mem_range.mp hi)]
    rw [this]
    simp [Nat.mul_comm]
  · exact Nat.div_mul_le_self total n
  · intro b _
    have hc := slices_cover total n b
    have : (∃ i, i < n ∧ in_slice (probe_slice env pdev total n i) b) ↔
        (∃ i, i < n ∧ i * (total / n) ≤ b ∧ b < i * (total / n) + total / n) := by
      constructor
      · rintro ⟨i, hi, h⟩
        rw [key i hi] at h
        exact ⟨i, hi, h⟩
      · rintro ⟨i, hi, h⟩
        refine ⟨i, hi, ?_⟩
        rw [key i hi]
        exact h
    rw [this, hc]
    omega
  · have e := fun i (hi : i < 3) =>
      probe_slice_eq env pdev 100 3 i (by norm_num) (by norm_num) hi
    simp only [Nat.cast_ofNat] at e
    simp [List.range, List.range.loop, e 0, e 1, e 2]
  · intro i hi
    have e := probe_slice_eq env pdev 100 3 i (by norm_num) (by norm_num) hi
    simp only [Nat.cast_ofNat] at e
    rw [e]
    unfold in_slice
    interval_cases i <;> simp

/-- C6 at total size 100 and three endpoints: the sizes sum to 99. -/
theorem C6_partition_coverage_witness :
    ((List.range 3).map fun i =>
      (probe_slice Env.good (pci_dev.sample 7) 100 ((3 : Nat) : Int) i).2).sum = 100 / 3 * 3 ∧
      100 / 3 * 3 ≤ 100 :=
  (C6_partition_coverage Env.good (pci_dev.sample 7) 100 3 (by norm_num) (by norm_num)
    (by norm_num)).2.2.2.2.1

/-! ## The lookup (lines 145-154) -/

theorem probe_lookup_drop (configs : List ivshmem_region_config) (key : Int) :
    ∀ (rem i : Nat), i + rem ≤ configs.length →
      probe_lookup configs key rem i = lookup_spec ((configs.drop i).take rem) key := by
  intro rem
  induction rem with
  | zero => intro i _; simp [probe_lookup, lookup_spec]
  | succ rem ih =>
    intro i h
    have hi : i < configs.length := by omega
    have hd : configs.drop i = configs[i] :: configs.drop (i + 1) := by
      rw [List.drop_eq_getElem_cons hi]
    have hg : configs.getD i ⟨0, 0⟩ = configs[i] := by
      simp [List.getD_eq_getElem?_getD, List.getElem?_eq_getElem hi]
    rw [probe_lookup, hg, hd, List.take_succ_cons]
    by_cases hk : configs[i].region_id = key
    · simp [lookup_spec, List.find?, hk]
    · rw [if_neg hk, ih (i + 1) (by omega)]
      simp [lookup_spec, List.find?, hk]

/-- C10 (lookup).  For every table (the first `num_configs` entries of
`configs`) and every key, the endpoint count resolved at the start of
`probe` is the `num_uios` of the first entry in table order whose
`region_id` equals the key, and 1 when the table is empty or no entry
matches; table `[{4,5},{7,2}]` resolves key 7 to 2 and key 9 to 1. -/
theorem C10_lookup_first_match (g : Globals) (key : Int)
    (h : g.num_configs ≤ g.configs.length) :
    probe_lookup g.configs key g.num_configs 0 = lookup_spec g.table key ∧
    (∀ pre e post, g.table = pre ++ e :: post → (∀ x ∈ pre, x.region_id ≠ key) →
      e.region_id = key → probe_lookup g.configs key g.num_configs 0 = e.num_uios) ∧
    ((∀ x ∈ g.table, x.region_id ≠ key) → probe_lookup g.configs key g.num_configs 0 = 1) ∧
    (g.table = [] → probe_lookup g.configs key g.num_configs 0 = 1) ∧
    (probe_lookup [⟨4, 5⟩, ⟨7, 2⟩] 7 2 0 = 2 ∧ probe_lookup [⟨4, 5⟩, ⟨7, 2⟩] 9 2 0 = 1) := by
  have h0 : probe_lookup g.configs key g.num_configs 0 = lookup_spec g.table key := by
    rw [probe_lookup_drop g.configs key g.num_configs 0 (by omega)]
    simp [Globals.table]
  have hnone : (∀ x ∈ g.table, x.region_id ≠ key) →
      probe_lookup g.configs key g.num_configs 0 = 1 := by
    intro hx
    rw [h0, lookup_spec]
    have : g.table.find? (fun e => e.region_id = key) = none := by
      rw [List.find?_eq_none]
      intro x hxm
      simpa using hx x hxm
    rw [this]
  refine ⟨h0, ?_, hnone, ?_, by decide, by decide⟩
  · intro pre e post ht hpre he
    rw [h0, lookup_spec, ht, List.find?_append]
    have : pre.find? (fun e => e.region_id = key) = none := by
      rw [List.find?_eq_none]
      intro x hxm
      simpa using hpre x hxm
    simp [this, List.find?, he]
  · intro ht
    apply hnone
    rw [ht]
    simp

/-- C10 at the table `[{4,5},{7,2},{7,3}]` and key 7: the earlier of the
two entries with key 7 wins. -/
theorem C10_lookup_first_match_witness :
    probe_lookup [⟨4, 5⟩, ⟨7, 2⟩, ⟨7, 3⟩] 7 3 0 =
      lookup_spec (Globals.table ⟨[⟨4, 5⟩, ⟨7, 2⟩, ⟨7, 3⟩], 3⟩) 7 :=
  (C10_lookup_first_match ⟨[⟨4, 5⟩, ⟨7, 2⟩, ⟨7, 3⟩], 3⟩ 7 (by decide)).1

/-! ## The registration loop and its unwinding (lines 178-226) -/

theorem probe_loop_ok (env : Env) (pdev : pci_dev) (b : Nat) (n : Int) :
    ∀ (rem i : Nat) (iv : ivshmem) (s : Kernel),
      (∀ j, i ≤ j → j < i + rem → env.register_ok j = true) →
      probe_loop env pdev b n rem i iv s =
        (none, ⟨iv.uios ++ (List.range' i rem).map (make_uio env pdev b n), iv.num_uios⟩,
          ⟨endpoints_res i rem ++ s.held, s.log ++ endpoints_calls i rem, s.bad_release,
            s.master, s.drvdata⟩) := by
  intro rem
  induction rem with
  | zero => intro i iv s _; simp [probe_loop, endpoints_res, endpoints_calls]
  | succ rem ih =>
    intro i iv s h
    have hi := h i (le_refl i) (by omega)
    rw [probe_loop]
    simp only [uio_register_device, hi, if_true, ne_eq, not_true_eq_false, if_false]
    rw [ih (i + 1) _ _ (fun j h1 h2 => h j (by omega) (by omega))]
    simp [kmalloc, pci_ioremap_bar, acquire, endpoints_res, endpoint_res, endpoints_calls,
      endpoint_calls, List.range'_succ]

theorem probe_loop_none (env : Env) (pdev : pci_dev) (b : Nat) (n : Int) :
    ∀ (rem i : Nat) (iv : ivshmem) (s : Kernel),
      (probe_loop env pdev b n rem i iv s).1 = none →
      ∀ j, i ≤ j → j < i + rem → env.register_ok j = true := by
  intro rem
  induction rem with
  | zero => intro i iv s _ j h1 h2; omega
  | succ rem ih =>
    intro i iv s h j h1 h2
    rw [probe_loop] at h
    cases hi : env.register_ok i with
    | false => simp [uio_register_device, hi, EINVAL] at h
    | true =>
      simp only [uio_register_device, hi, if_true, ne_eq, not_true_eq_false, if_false] at h
      rcases Nat.eq_or_lt_of_le h1 with rfl | hlt
      · exact hi
      · exact ih (i + 1) _ _ h j hlt (by omega)

theorem probe_loop_fail (env : Env) (pdev : pci_dev) (b : Nat) (n : Int) (f : Nat)
    (hf : env.register_ok f = false) :
    ∀ (rem i : Nat) (iv : ivshmem) (s : Kernel), i ≤ f → f < i + rem →
      (∀ j, i ≤ j → j < f → env.register_ok j = true) →
      (probe_loop env pdev b n rem i iv s).1 = some f ∧
      (probe_loop env pdev b n rem i iv s).2.2 =
        ⟨[.mapping f, .name f, .uinfo f] ++ endpoints_res i (f - i) ++ s.held,
          s.log ++ endpoints_calls i (f - i) ++ endpoint_calls f false, s.bad_release,
          s.master, s.drvdata⟩ := by
  intro rem
  induction rem with
  | zero => intro i iv s h1 h2; omega
  | succ rem ih =>
    intro i iv s h1 h2 h
    rw [probe_loop]
    rcases Nat.eq_or_lt_of_le h1 with rfl | hlt
    · simp [uio_register_device, hf, EINVAL, kmalloc, pci_ioremap_bar, acquire, acquire_fail,
        endpoints_res, endpoints_calls, endpoint_calls]
    · have hi := h i (le_refl i) hlt
      simp only [uio_register_device, hi, if_true, ne_eq, not_true_eq_false, if_false]
      have hsub : f - i = (f - (i + 1)) + 1 := by omega
      have := ih (i + 1) { iv with uios := iv.uios ++ [make_uio env pdev b n i] }
        (acquire (.registration i) (pci_ioremap_bar i (kmalloc (.name i) (kmalloc (.uinfo i) s))))
        hlt (by omega) (fun j h3 h4 => h j (by omega) h4)
      refine ⟨this.1, ?_⟩
      rw [this.2, hsub]
      simp [kmalloc, pci_ioremap_bar, acquire, endpoints_res, endpoint_res, endpoints_calls,
        endpoint_calls]

theorem endpoints_res_top : ∀ (rem i : Nat),
    endpoints_res i (rem + 1) = endpoint_res (i + rem) ++ endpoints_res i rem := by
  intro rem
  induction rem with
  | zero => intro i; simp [endpoints_res]
  | succ rem ih =>
    intro i
    rw [endpoints_res, ih (i + 1), endpoints_res]
    have : i + 1 + rem = i + (rem + 1) := by omega
    rw [this, List.append_assoc]

theorem mem_endpoints_res (r : Res) : ∀ (rem i : Nat), r ∈ endpoints_res i rem →
    ∃ k, i ≤ k ∧ k < i + rem ∧ r ∈ endpoint_res k := by
  intro rem
  induction rem with
  | zero => intro i h; simp [endpoints_res] at h
  | succ rem ih =>
    intro i h
    rw [endpoints_res, List.mem_append] at h
    rcases h with h | h
    · obtain ⟨k, h1, h2, h3⟩ := ih (i + 1) h
      exact ⟨k, by omega, by omega, h3⟩
    · exact ⟨i, le_refl i, by omega, h⟩

theorem mem_mappings_res (r : Res) : ∀ (j : Nat), r ∈ mappings_res j →
    ∃ k, k < j ∧ r = .mapping k := by
  intro j
  induction j with
  | zero => intro h; simp [mappings_res] at h
  | succ j ih =>
    intro h
    rw [mappings_res, List.mem_cons] at h
    rcases h with h | h
    · exact ⟨j, by omega, h⟩
    · obtain ⟨k, h1, h2⟩ := ih h
      exact ⟨k, by omega, h2⟩

theorem release_mid (r : Res) (P X : List Res) (log : List Call) (br : Nat) (m : Bool)
    (d : Option ivshmem) (h : r ∉ P) :
    release r ⟨P ++ r :: X, log, br, m, d⟩ = ⟨P ++ X, log ++ [.release r], br, m, d⟩ := by
  have hmem : r ∈ P ++ r :: X := by simp
  simp only [release, hmem, if_true]
  rw [List.erase_append_right _ h, List.erase_cons_head]

theorem probe_unwind_eq : ∀ (j : Nat) (P B : List Res) (log : List Call) (br : Nat) (m : Bool)
    (d : Option ivshmem),
    (∀ k, k < j → Res.registration k ∉ P ∧ Res.name k ∉ P ∧ Res.uinfo k ∉ P) →
    probe_unwind j ⟨P ++ endpoints_res 0 j ++ B, log, br, m, d⟩ =
      ⟨P ++ mappings_res j ++ B, log ++ unwind_calls j, br, m, d⟩ := by
  intro j
  induction j with
  | zero => intro P B log br m d _; simp [probe_unwind, endpoints_res, mappings_res, unwind_calls]
  | succ j ih =>
    intro P B log br m d h
    obtain ⟨h1, h2, h3⟩ := h j (by omega)
    rw [probe_unwind, endpoints_res_top]
    simp only [Nat.zero_add, endpoint_res, uio_unregister_device, kfree, List.append_assoc,
      List.cons_append, List.nil_append]
    rw [release_mid _ P _ _ _ _ _ h1]
    have e1 : P ++ Res.mapping j :: Res.name j :: Res.uinfo j :: (endpoints_res 0 j ++ B) =
        (P ++ [Res.mapping j]) ++ Res.name j :: Res.uinfo j :: (endpoints_res 0 j ++ B) := by
      simp
    rw [e1, release_mid _ (P ++ [Res.mapping j]) _ _ _ _ _ (by simp [h2]),
      release_mid _ (P ++ [Res.mapping j]) _ _ _ _ _ (by simp [h3])]
    have := ih (P ++ [Res.mapping j]) B
      (log ++ [.release (.registration j)] ++ [.release (.name j)] ++ [.release (.uinfo j)])
      br m d (fun k hk => by
        obtain ⟨a, b, c⟩ := h k (by omega)
        simp [a, b, c])
    rw [List.append_assoc] at this
    rw [this]
    simp [mappings_res, unwind_calls]

theorem remove_loop_eq : ∀ (rem i : Nat) (B : List Res) (log : List Call) (br : Nat) (m : Bool)
    (d : Option ivshmem),
    remove_loop rem i ⟨endpoints_res i rem ++ B, log, br, m, d⟩ =
      ⟨B, log ++ (List.range' i rem).flatMap remove_calls, br, m, d⟩ := by
  intro rem
  induction rem with
  | zero => intro i B log br m d; simp [remove_loop, endpoints_res]
  | succ rem ih =>
    intro i B log br m d
    have hP : ∀ r ∈ endpoint_res i, r ∉ endpoints_res (i + 1) rem := by
      intro r hr hmem
      obtain ⟨k, h1, _, h3⟩ := mem_endpoints_res r rem (i + 1) hmem
      simp only [endpoint_res, List.mem_cons, List.mem_singleton, List.not_mem_nil,
        or_false] at hr h3
      rcases hr with rfl | rfl | rfl | rfl <;> simp at h3 <;> omega
    have h1 := hP (.registration i) (by simp [endpoint_res])
    have h2 := hP (.mapping i) (by simp [endpoint_res])
    have h3 := hP (.name i) (by simp [endpoint_res])
    have h4 := hP (.uinfo i) (by simp [endpoint_res])
    rw [remove_loop, endpoints_res]
    simp only [endpoint_res, uio_unregister_device, iounmap, kfree, List.append_assoc,
      List.cons_append, List.nil_append]
    rw [release_mid _ _ _ _ _ _ _ h1, release_mid _ _ _ _ _ _ _ h2,
      release_mid _ _ _ _ _ _ _ h3, release_mid _ _ _ _ _ _ _ h4, ih]
    simp [List.range'_succ, remove_calls]

/-! ## `probe` as a whole -/

theorem probe_setup (g : Globals) (env : Env) (pdev : pci_dev) (n : Nat)
    (hn : probe_lookup g.configs (pdev.subsystem_device : Int) g.num_configs 0 = (n : Int))
    (h1 : 1 ≤ n) (he : env.enable_ok = true) (hr : env.regions_ok = true)
    (hq : n ≤ env.irq_avail) :
    probe g env pdev Kernel.init =
      match probe_loop env pdev (page_round env pdev.bar2_len) n n 0 ⟨[], n⟩
          ⟨setup_res n, setup_calls n, 0, false, none⟩ with
      | (some i, _, s) => probe_error_uio i s
      | (none, iv, s) => (0, pci_set_drvdata iv (pci_set_master s)) := by
  have c1 : (1 : Int) ≤ (n : Int) := by exact_mod_cast h1
  have c2 : (n : Int) ≤ (env.irq_avail : Int) := by exact_mod_cast hq
  have c3 : min n env.irq_avail = n := Nat.min_eq_left hq
  simp [probe, hn, he, hr, pci_enable_device, pci_request_regions, pci_alloc_irq_vectors,
    kmalloc, acquire, Kernel.init, c1, c2, c3, setup_res, setup_calls]

theorem probe_success (g : Globals) (env : Env) (pdev : pci_dev) (n : Nat)
    (hn : probe_lookup g.configs (pdev.subsystem_device : Int) g.num_configs 0 = (n : Int))
    (h1 : 1 ≤ n) (he : env.enable_ok = true) (hr : env.regions_ok = true)
    (hq : n ≤ env.irq_avail) (hok : ∀ j, j < n → env.register_ok j = true) :
    probe g env pdev Kernel.init =
      (0, ⟨endpoints_res 0 n ++ setup_res n,
        setup_calls n ++ endpoints_calls 0 n ++ [.pci_set_master, .pci_set_drvdata], 0, true,
        some ⟨(List.range' 0 n).map (make_uio env pdev (page_round env pdev.bar2_len) n), n⟩⟩) := by
  rw [probe_setup g env pdev n hn h1 he hr hq,
    probe_loop_ok env pdev _ n n 0 _ _ (fun j _ h => hok j (by omega))]
  simp [pci_set_drvdata, pci_set_master]

theorem probe_fail_at (g : Globals) (env : Env) (pdev : pci_dev) (n f : Nat)
    (hn : probe_lookup g.configs (pdev.subsystem_device : Int) g.num_configs 0 = (n : Int))
    (hfn : f < n) (he : env.enable_ok = true) (hr : env.regions_ok = true)
    (hq : n ≤ env.irq_avail) (hok : ∀ j, j < f → env.register_ok j = true)
    (hf : env.register_ok f = false) :
    probe g env pdev Kernel.init =
      (-ENODEV, ⟨[.mapping f, .name f, .uinfo f] ++ mappings_res f ++ [.irq_vectors n],
        setup_calls n ++ endpoints_calls 0 f ++ endpoint_calls f false ++ unwind_calls f ++
          [.release .regions, .release .enabled, .release .uios, .release .ivshmem],
        0, false, none⟩) := by
  rw [probe_setup g env pdev n hn (by omega) he hr hq]
  obtain ⟨l1, l2⟩ := probe_loop_fail env pdev (page_round env pdev.bar2_len) n f hf n 0 ⟨[], n⟩
    ⟨setup_res n, setup_calls n, 0, false, none⟩ (Nat.zero_le f) (by omega)
    (fun j _ h => hok j h)
  generalize probe_loop env pdev (page_round env pdev.bar2_len) n n 0 ⟨[], n⟩
    ⟨setup_res n, setup_calls n, 0, false, none⟩ = res at l1 l2
  obtain ⟨a, iv, s⟩ := res
  simp only at l1 l2
  subst l1 l2
  simp only [Nat.sub_zero, probe_error_uio]
  rw [probe_unwind_eq f [.mapping f, .name f, .uinfo f] (setup_res n) _ _ _ _
    (fun k hk => by
      have h1 : f ≠ k := by omega
      have h2 : k ≠ f := by omega
      simp [h1, h2])]
  have hP : ∀ r, r = Res.regions ∨ r = Res.enabled ∨ r = Res.uios ∨ r = Res.ivshmem →
      r ∉ [Res.mapping f, Res.name f, Res.uinfo f] ++ mappings_res f ++ [Res.irq_vectors n] := by
    intro r hr' hmem
    simp only [List.mem_append, List.mem_cons, List.mem_singleton, List.not_mem_nil,
      or_false] at hmem
    rcases hmem with (h | h) | h
    · rcases hr' with rfl | rfl | rfl | rfl <;> simp at h
    · obtain ⟨k, _, hk⟩ := mem_mappings_res r f h
      rcases hr' with rfl | rfl | rfl | rfl <;> simp at hk
    · rcases hr' with rfl | rfl | rfl | rfl <;> simp at h
  have e : [Res.mapping f, Res.name f, Res.uinfo f] ++ mappings_res f ++ setup_res n =
      ([Res.mapping f, Res.name f, Res.uinfo f] ++ mappings_res f ++ [Res.irq_vectors n]) ++
        Res.regions :: [Res.enabled, Res.uios, Res.ivshmem] := by
    simp [setup_res]
  rw [e]
  generalize [Res.mapping f, Res.name f, Res.uinfo f] ++ mappings_res f ++ [Res.irq_vectors n]
    = P at hP
  simp only [probe_error_release, probe_error, pci_release_regions, pci_disable_device, kfree]
  rw [release_mid _ P _ _ _ _ _ (hP _ (by simp)), release_mid _ P _ _ _ _ _ (hP _ (by simp))]
  simp only []
  rw [release_mid _ P _ _ _ _ _ (hP _ (by simp))]
  have e2 : P ++ [Res.ivshmem] = P ++ Res.ivshmem :: [] := rfl
  rw [e2, release_mid _ P _ _ _ _ _ (hP _ (by simp))]
  simp

theorem probe_zero_ok (g : Globals) (env : Env) (pdev : pci_dev) (n : Nat)
    (hn : probe_lookup g.configs (pdev.subsystem_device : Int) g.num_configs 0 = (n : Int))
    (h1 : 1 ≤ n) (h0 : (probe g env pdev Kernel.init).1 = 0) :
    env.enable_ok = true ∧ env.regions_ok = true ∧ n ≤ env.irq_avail ∧
      ∀ j, j < n → env.register_ok j = true := by
  have c1 : (1 : Int) ≤ (n : Int) := by exact_mod_cast h1
  cases he : env.enable_ok with
  | false =>
    simp [probe, hn, he, pci_enable_device, probe_error, ENODEV] at h0
  | true =>
    cases hr : env.regions_ok with
    | false =>
      simp [probe, hn, he, hr, pci_enable_device, pci_request_regions, probe_error, ENODEV]
        at h0
    | true =>
      by_cases hq : n ≤ env.irq_avail
      · refine ⟨rfl, rfl, hq, ?_⟩
        rw [probe_setup g env pdev n hn h1 he hr hq] at h0
        have := probe_loop_none env pdev (page_round env pdev.bar2_len) n n 0 ⟨[], n⟩
          ⟨setup_res n, setup_calls n, 0, false, none⟩
        generalize probe_loop env pdev (page_round env pdev.bar2_len) n n 0 ⟨[], n⟩
          ⟨setup_res n, setup_calls n, 0, false, none⟩ = res at h0 this
        obtain ⟨a, iv, s⟩ := res
        cases a with
        | none => exact fun j hj => this rfl j (Nat.zero_le j) (by omega)
        | some i =>
          simp [probe_error_uio, probe_error_release, probe_error, ENODEV] at h0
      · have c2 : ¬ (n : Int) ≤ (env.irq_avail : Int) := by exact_mod_cast hq
        have c3 : (-28 : Int) < (n : Int) := by omega
        simp [probe, hn, he, hr, pci_enable_device, pci_request_regions,
          pci_alloc_irq_vectors, c1, c2, c3, ENOSPC, probe_error_release, probe_error, ENODEV]
          at h0

/-! ## What the call log and the ledger say about registrations -/

theorem register_attempt_endpoints_calls : ∀ (rem i : Nat),
    (endpoints_calls i rem).filterMap Call.register_attempt = List.range' i rem := by
  intro rem
  induction rem with
  | zero => intro i; simp [endpoints_calls]
  | succ rem ih =>
    intro i
    simp [endpoints_calls, endpoint_calls, List.filterMap_append, ih, List.range'_succ,
      List.filterMap_cons, Call.register_attempt]

theorem unregister_endpoints_calls : ∀ (rem i : Nat),
    (endpoints_calls i rem).filterMap Call.unregister = [] := by
  intro rem
  induction rem with
  | zero => intro i; simp [endpoints_calls]
  | succ rem ih =>
    intro i
    simp [endpoints_calls, endpoint_calls, List.filterMap_append, ih, List.filterMap_cons,
      Call.unregister]

theorem register_attempt_unwind_calls : ∀ (j : Nat),
    (unwind_calls j).filterMap Call.register_attempt = [] := by
  intro j
  induction j with
  | zero => simp [unwind_calls]
  | succ j ih =>
    simp [unwind_calls, List.filterMap_cons, Call.register_attempt, ih]

theorem unregister_unwind_calls : ∀ (j : Nat),
    (unwind_calls j).filterMap Call.unregister = (List.range j).reverse := by
  intro j
  induction j with
  | zero => simp [unwind_calls]
  | succ j ih =>
    simp [unwind_calls, List.filterMap_cons, Call.unregister, ih, List.range_succ]

theorem registered_mappings_res : ∀ (j : Nat),
    (mappings_res j).filterMap (fun r => match r with
      | .registration i => some i
      | _ => none) = [] := by
  intro j
  induction j with
  | zero => simp [mappings_res]
  | succ j ih => simp [mappings_res, List.filterMap_cons, ih]

theorem registered_endpoints_res : ∀ (rem i : Nat),
    (endpoints_res i rem).filterMap (fun r => match r with
      | .registration i => some i
      | _ => none) = (List.range' i rem).reverse := by
  intro rem
  induction rem with
  | zero => intro i; simp [endpoints_res]
  | succ rem ih =>
    intro i
    simp [endpoints_res, endpoint_res, List.filterMap_append, ih, List.range'_succ,
      List.filterMap_cons]

/-! ## Claims about `probe` and `remove` -/

/-- C1 (P5, resources), at a failing input.  With table `[{7,3}]`, a device
with key 7 and `uio_register_device` failing at index 1 (all earlier steps
succeeding), `probe` returns `-ENODEV` while the ledger still holds the
register-region mappings of indices 0 and 1, the descriptor and the name of
index 1 and the three interrupt vectors; only the regions, the enabling,
the endpoint array, the device record and the descriptor and name of index
0 have been released. -/
theorem C1_rollback_leaves_resources :
    probe ⟨[⟨7, 3⟩], 1⟩ { Env.good with register_ok := fun j => decide (j < 1) }
        (pci_dev.sample 7) Kernel.init =
      (-ENODEV,
        ⟨[.mapping 1, .name 1, .uinfo 1, .mapping 0, .irq_vectors 3],
          [.acquire .ivshmem true, .acquire .uios true, .acquire .enabled true,
            .acquire .regions true, .acquire (.irq_vectors 3) true,
            .acquire (.uinfo 0) true, .acquire (.name 0) true, .acquire (.mapping 0) true,
            .acquire (.registration 0) true,
            .acquire (.uinfo 1) true, .acquire (.name 1) true, .acquire (.mapping 1) true,
            .acquire (.registration 1) false,
            .release (.registration 0), .release (.name 0), .release (.uinfo 0),
            .release .regions, .release .enabled, .release .uios, .release .ivshmem],
          0, false, none⟩) := by
  decide

/-- C2 (P5, rollback bound).  For every endpoint count `n` in 1..5 and every
index `i < n`, if the device is enabled, its regions claimed and `n` vectors
granted, and `uio_register_device` first fails at index `i`, then
`uio_register_device` was attempted exactly for the indices `0, ..., i` (once
each, in this order), `uio_unregister_device` was called exactly once for
each index in `[0, i)` (from `i - 1` down to 0) and for no other index, no
endpoint is registered when `probe` returns, and `probe` returns `-ENODEV`. -/
theorem C2_rollback_bound (g : Globals) (env : Env) (pdev : pci_dev) (n i : Nat)
    (hn : probe_lookup g.configs (pdev.subsystem_device : Int) g.num_configs 0 = (n : Int))
    (h1 : 1 ≤ n) (h5 : n ≤ 5) (hi : i < n)
    (he : env.enable_ok = true) (hr : env.regions_ok = true) (hq : n ≤ env.irq_avail)
    (hok : ∀ j, j < i → env.register_ok j = true) (hf : env.register_ok i = false) :
    (probe g env pdev Kernel.init).2.log.filterMap Call.register_attempt = List.range (i + 1) ∧
    (probe g env pdev Kernel.init).2.log.filterMap Call.unregister = (List.range i).reverse ∧
    (probe g env pdev Kernel.init).2.registered = [] ∧
    (probe g env pdev Kernel.init).1 = -ENODEV := by
  rw [probe_fail_at g env pdev n i hn hi he hr hq hok hf]
  refine ⟨?_, ?_, ?_, rfl⟩
  · simp [List.filterMap_append, register_attempt_endpoints_calls, register_attempt_unwind_calls,
      setup_calls, endpoint_calls, Call.register_attempt, List.range_succ,
      List.range_eq_range']
  · simp [List.filterMap_append, unregister_endpoints_calls, unregister_unwind_calls,
      setup_calls, endpoint_calls, Call.unregister]
  · simp [Kernel.registered, List.filterMap_append, registered_mappings_res]

/-- C2 with table `[{7,3}]`, key 7 and registration failing at index 1. -/
theorem C2_rollback_bound_witness :
    (probe ⟨[⟨7, 3⟩], 1⟩ { Env.good with register_ok := fun j => decide (j < 1) }
      (pci_dev.sample 7) Kernel.init).2.log.filterMap Call.unregister = (List.range 1).reverse :=
  (C2_rollback_bound ⟨[⟨7, 3⟩], 1⟩ { Env.good with register_ok := fun j => decide (j < 1) }
    (pci_dev.sample 7) 3 1 (by decide) (by decide) (by decide) (by decide) rfl rfl (by decide)
    (fun j hj => by simp [hj]) (by decide)).2.1

theorem page_round_lt (env : Env) (len : Nat) : page_round env len < 2 ^ 64 := by
  unfold page_round
  exact lt_of_le_of_lt Nat.and_le_left (Nat.mod_lt _ (by norm_num))

/-- C3 as stated fails: a device without a shared-memory BAR (length 0),
key 7 and table `[{7,2}]`.  `probe` returns 0 with two endpoints whose
private slices are both `{0, 0}`, so the two slices are not distinct. -/
theorem C3_counterexample_equal_slices :
    (probe ⟨[⟨7, 2⟩], 1⟩ Env.good ⟨7, 0xfe000000, 256, 0, 0⟩ Kernel.init).1 = 0 ∧
    ((probe ⟨[⟨7, 2⟩], 1⟩ Env.good ⟨7, 0xfe000000, 256, 0, 0⟩ Kernel.init).2.drvdata.map
      fun iv => iv.uios.map fun u => (u.bar2_offset, u.uinfo.mem1.size)) =
      some [(0, 0), (0, 0)] := by
  decide

/-- C3 (P6, commit atomicity), amended.  Whenever `probe` returns 0 for a
device whose resolved endpoint count is `n` (in 1..5), exactly the endpoints
`0, ..., n - 1` are registered, each registered once; the published record
has `n` endpoints; endpoint `i` is bound to interrupt vector `i`, so distinct
endpoints have distinct vectors; the private slices of two distinct
endpoints do not overlap; and they are distinct whenever the rounded size
of the shared region is at least `n`. -/
theorem C3_commit_atomicity (g : Globals) (env : Env) (pdev : pci_dev) (n : Nat)
    (hn : probe_lookup g.configs (pdev.subsystem_device : Int) g.num_configs 0 = (n : Int))
    (h1 : 1 ≤ n) (h5 : n ≤ 5) (h0 : (probe g env pdev Kernel.init).1 = 0) :
    (probe g env pdev Kernel.init).2.registered = (List.range n).reverse ∧
    (probe g env pdev Kernel.init).2.log.filterMap Call.register_attempt = List.range n ∧
    (probe g env pdev Kernel.init).2.log.filterMap Call.unregister = [] ∧
    ∃ iv, (probe g env pdev Kernel.init).2.drvdata = some iv ∧ iv.num_uios = n ∧
      iv.uios.length = n ∧
      (∀ i, i < n → ∃ u, iv.uios[i]? = some u ∧ u.uinfo.irq = i ∧
        u.bar2_offset = i * (page_round env pdev.bar2_len / n) ∧
        u.uinfo.mem1.size = page_round env pdev.bar2_len / n) ∧
      (∀ (i j : Nat) (u v : ivshmem_uio), i < j → iv.uios[i]? = some u → iv.uios[j]? = some v →
        u.uinfo.irq ≠ v.uinfo.irq ∧
        u.bar2_offset + u.uinfo.mem1.size ≤ v.bar2_offset ∧
        (n ≤ page_round env pdev.bar2_len →
          (u.bar2_offset, u.uinfo.mem1.size) ≠ (v.bar2_offset, v.uinfo.mem1.size))) := by
  obtain ⟨he, hr, hq, hok⟩ := probe_zero_ok g env pdev n hn h1 h0
  rw [probe_success g env pdev n hn h1 he hr hq hok]
  have hB := page_round_lt env pdev.bar2_len
  generalize page_round env pdev.bar2_len = B at hB
  have hget : ∀ i, i < n → ((List.range' 0 n).map (make_uio env pdev B n))[i]? =
      some (make_uio env pdev B n i) := by
    intro i hi
    simp [List.getElem?_map, List.getElem?_range', hi]
  have hoff : ∀ i, i < n → (make_uio env pdev B n i).bar2_offset = i * (B / n) := by
    intro i hi
    simp [make_uio, slice_offset_eq B n i hB h5 hi]
  have hsz : ∀ i, (make_uio env pdev B n i).uinfo.mem1.size = B / n := by
    intro i
    simp [make_uio, slice_size_eq B n h5]
  refine ⟨?_, ?_, ?_, _, rfl, rfl, by simp, ?_, ?_⟩
  · simp [Kernel.registered, List.filterMap_append, registered_endpoints_res, setup_res,
      List.range_eq_range']
  · simp [List.filterMap_append, register_attempt_endpoints_calls, setup_calls,
      Call.register_attempt, List.range_eq_range']
  · simp [List.filterMap_append, unregister_endpoints_calls, setup_calls, Call.unregister]
  · intro i hi
    exact ⟨_, hget i hi, by simp [make_uio], hoff i hi, hsz i⟩
  · intro i j u v hij hu hv
    have hj : j < n := by
      by_contra hcon
      have : ((List.range' 0 n).map (make_uio env pdev B n))[j]? = none := by
        simp [List.getElem?_eq_none_iff]; omega
      simp only at hv
      rw [this] at hv
      cases hv
    simp only at hu hv
    rw [hget i (by omega)] at hu
    rw [hget j hj] at hv
    cases hu
    cases hv
    rw [hoff i (by omega), hoff j hj, hsz i, hsz j]
    have hmul : (i + 1) * (B / n) ≤ j * (B / n) := Nat.mul_le_mul_right _ hij
    have hexp : (i + 1) * (B / n) = i * (B / n) + B / n := by ring
    refine ⟨by simp [make_uio]; omega, by omega, ?_⟩
    intro hnB heq
    have hpos : 0 < B / n := Nat.div_pos hnB (by omega)
    simp only [Prod.mk.injEq, and_true] at heq
    omega

/-- C3 (amended) at table `[{4,5},{7,2}]`, key 7 and a 1 MiB shared region. -/
theorem C3_commit_atomicity_witness :
    (probe ⟨[⟨4, 5⟩, ⟨7, 2⟩], 2⟩ Env.good (pci_dev.sample 7) Kernel.init).2.registered =
      (List.range 2).reverse :=
  (C3_commit_atomicity ⟨[⟨4, 5⟩, ⟨7, 2⟩], 2⟩ Env.good (pci_dev.sample 7) 2 (by decide)
    (by decide) (by decide) (by decide)).1

/-- C4 (detach is the exact inverse of a committed attach).  For every
device and endpoint count `n` in 1..5, if `probe` returned 0 then `probe`
made the set-up calls and `n` complete loop iterations (one mapping, one
descriptor, one name and one registration per endpoint), and `remove`, run
on the state `probe` published, unregisters endpoint `i`, unmaps its
mapping, frees its name and its descriptor for `i = 0, ..., n - 1` in this
order, then frees the interrupt vectors, releases the regions, disables the
device and frees the endpoint array and the device record; afterwards the
ledger is the ledger before `probe`, bus mastering is off again, and no
release was made on something not held. -/
theorem C4_remove_inverts_probe (g : Globals) (env : Env) (pdev : pci_dev) (n : Nat)
    (hn : probe_lookup g.configs (pdev.subsystem_device : Int) g.num_configs 0 = (n : Int))
    (h1 : 1 ≤ n) (h5 : n ≤ 5) (h0 : (probe g env pdev Kernel.init).1 = 0) :
    (probe g env pdev Kernel.init).2.log =
      setup_calls n ++ endpoints_calls 0 n ++ [.pci_set_master, .pci_set_drvdata] ∧
    (remove (probe g env pdev Kernel.init).2).log =
      (probe g env pdev Kernel.init).2.log ++ (List.range n).flatMap remove_calls ++
        [.pci_free_irq_vectors, .release .regions, .release .enabled, .release .uios,
          .release .ivshmem] ∧
    (remove (probe g env pdev Kernel.init).2).held = Kernel.init.held ∧
    (remove (probe g env pdev Kernel.init).2).master = Kernel.init.master ∧
    (remove (probe g env pdev Kernel.init).2).bad_release = 0 := by
  obtain ⟨he, hr, hq, hok⟩ := probe_zero_ok g env pdev n hn h1 h0
  rw [probe_success g env pdev n hn h1 he hr hq hok]
  simp only [remove, Int.toNat_ofNat]
  rw [remove_loop_eq]
  simp [pci_free_irq_vectors, pci_release_regions, pci_disable_device, kfree, release,
    setup_res, Kernel.init, List.range_eq_range']

/-- C4 at table `[{4,5},{7,2}]`, key 7. -/
theorem C4_remove_inverts_probe_witness :
    (remove (probe ⟨[⟨4, 5⟩, ⟨7, 2⟩], 2⟩ Env.good (pci_dev.sample 7) Kernel.init).2).held =
      Kernel.init.held :=
  (C4_remove_inverts_probe ⟨[⟨4, 5⟩, ⟨7, 2⟩], 2⟩ Env.good (pci_dev.sample 7) 2 (by decide)
    (by decide) (by decide) (by decide)).2.2.1

/-! ## `parse_region_config`: from `strsep` to items -/

theorem strchr_split_items : ∀ (s : List Char),
    match strchr_split ',' s with
    | none => items s = [s]
    | some (a, b) => items s = a :: items b := by
  intro s
  induction s with
  | nil => simp [strchr_split, items]
  | cons c s ih =>
    by_cases hc : c = ','
    · simp [strchr_split, items, hc]
    · rw [strchr_split, if_neg hc]
      cases hs : strchr_split ',' s with
      | none =>
        rw [hs] at ih
        simp only at ih ⊢
        simp [items, hc, ih]
      | some p =>
        obtain ⟨a, b⟩ := p
        rw [hs] at ih
        simp only at ih ⊢
        simp [items, hc, ih]

theorem parse_loop_step (slots i : Nat) (entry : List Char) (cc : Option (List Char))
    (c : List ivshmem_region_config) :
    parse_loop (slots + 1) i (some entry) cc c =
      match parse_entry entry with
      | none => .error c
      | some e => parse_loop slots (i + 1) (strsep cc ',').1 (strsep cc ',').2 (c.set i e) := by
  rw [parse_loop, parse_entry]
  cases strchr_split ':' (List.dropWhile (fun x => decide (x = ' ')) entry) with
  | none => rfl
  | some p =>
    obtain ⟨a, b⟩ := p
    simp only
    cases kstrtoint a with
    | none => rfl
    | some k =>
      cases kstrtoint b with
      | none => rfl
      | some m =>
        simp only
        split <;> rfl

theorem parse_loop_none (slots i : Nat) (cc : Option (List Char))
    (c : List ivshmem_region_config) : parse_loop slots i none cc c = .done i c := by
  cases slots <;> rfl

theorem parse_loop_items : ∀ (slots i : Nat) (s : List Char) (c : List ivshmem_region_config),
    parse_loop slots i (strsep (some s) ',').1 (strsep (some s) ',').2 c =
      store_items slots i (items s) c := by
  intro slots
  induction slots with
  | zero => intro i s c; rfl
  | succ slots ih =>
    intro i s c
    have hs := strchr_split_items s
    cases hsp : strchr_split ',' s with
    | none =>
      rw [hsp] at hs
      simp only at hs
      simp only [strsep, hsp, hs]
      rw [parse_loop_step, store_items]
      cases parse_entry s with
      | none => rfl
      | some e =>
        simp only [strsep]
        rw [parse_loop_none]
        cases slots <;> rfl
    | some p =>
      obtain ⟨a, b⟩ := p
      rw [hsp] at hs
      simp only at hs
      simp only [strsep, hsp, hs]
      rw [parse_loop_step, store_items]
      cases parse_entry a with
      | none => rfl
      | some e => exact ih (i + 1) b (c.set i e)

/-! ## The loop over items -/

theorem store_items_error : ∀ (slots i : Nat) (its : List (List Char))
    (c : List ivshmem_region_config) (j : Nat) (it : List Char),
    j < slots → its[j]? = some it → parse_entry it = none →
    ∃ c', store_items slots i its c = .error c' := by
  intro slots
  induction slots with
  | zero => intro i its c j it hj; omega
  | succ slots ih =>
    intro i its c j it hj hit hbad
    cases its with
    | nil => simp at hit
    | cons a its =>
      rw [store_items]
      cases ha : parse_entry a with
      | none => exact ⟨c, rfl⟩
      | some e =>
        cases j with
        | zero =>
          simp at hit
          rw [hit, hbad] at ha
          cases ha
        | succ j =>
          simp at hit
          exact ih (i + 1) its (c.set i e) j it (by omega) hit hbad

theorem store_items_ok : ∀ (slots i : Nat) (its : List (List Char))
    (c : List ivshmem_region_config),
    (∀ it ∈ its.take slots, parse_entry it = some (item_entry it)) →
    store_items slots i its c =
      .done (i + (its.take slots).length) (write_entries c i ((its.take slots).map item_entry)) := by
  intro slots
  induction slots with
  | zero => intro i its c _; simp [store_items, write_entries]
  | succ slots ih =>
    intro i its c h
    cases its with
    | nil => simp [store_items, write_entries]
    | cons a its =>
      have ha := h a (by simp)
      rw [store_items, ha]
      simp only
      rw [ih (i + 1) its _ (fun it hit => h it (by simp [hit]))]
      simp [write_entries, Nat.add_assoc, Nat.add_comm 1]

theorem length_write_entries : ∀ (es c : List ivshmem_region_config) (i : Nat),
    (write_entries c i es).length = c.length := by
  intro es
  induction es with
  | nil => intro c i; rfl
  | cons e es ih => intro c i; rw [write_entries, ih, List.length_set]

theorem take_set_succ (c : List ivshmem_region_config) (i : Nat) (e : ivshmem_region_config)
    (h : i < c.length) : (c.set i e).take (i + 1) = c.take i ++ [e] := by
  rw [List.take_succ, List.getElem?_set_self h]
  have : (c.set i e).take i = c.take i := by
    apply List.ext_getElem?
    intro k
    rw [List.getElem?_take, List.getElem?_take]
    split
    · rw [List.getElem?_set_ne (by omega)]
    · rfl
  rw [this]
  rfl

theorem take_write_entries : ∀ (es c : List ivshmem_region_config) (i : Nat),
    i + es.length ≤ c.length →
    (write_entries c i es).take (i + es.length) = c.take i ++ es := by
  intro es
  induction es with
  | nil => intro c i _; simp [write_entries]
  | cons e es ih =>
    intro c i h
    simp only [List.length_cons] at h
    rw [write_entries]
    have := ih (c.set i e) (i + 1) (by rw [List.length_set]; omega)
    rw [take_set_succ c i e (by omega)] at this
    simp only [List.length_cons]
    rw [show i + (es.length + 1) = i + 1 + es.length by omega, this]
    simp

/-! ## Well-formed and malformed items -/

theorem strchr_split_none (c : Char) : ∀ (s : List Char), c ∉ s → strchr_split c s = none := by
  intro s
  induction s with
  | nil => intro _; rfl
  | cons x s ih =>
    intro h
    simp only [List.mem_cons, not_or] at h
    have hx : ¬ x = c := fun e => h.1 e.symm
    rw [strchr_split, if_neg hx, ih h.2]

theorem strchr_split_some (c : Char) : ∀ (s : List Char), c ∈ s →
    strchr_split c s = some (s.takeWhile (· ≠ c), (s.dropWhile (· ≠ c)).drop 1) := by
  intro s
  induction s with
  | nil => intro h; simp at h
  | cons x s ih =>
    intro h
    by_cases hx : x = c
    · simp [strchr_split, hx]
    · have hm : c ∈ s := by
        rcases List.mem_cons.mp h with h | h
        · exact absurd h.symm hx
        · exact h
      rw [strchr_split, if_neg hx, ih hm]
      simp [List.takeWhile_cons, List.dropWhile_cons, hx]

theorem count_after_split (c : Char) : ∀ (s : List Char), c ∈ s →
    s.count c = 1 + ((s.dropWhile (· ≠ c)).drop 1).count c := by
  intro s
  induction s with
  | nil => intro h; simp at h
  | cons x s ih =>
    intro h
    by_cases hx : x = c
    · subst hx
      simp [List.dropWhile_cons, Nat.add_comm]
    · have hm : c ∈ s := by
        rcases List.mem_cons.mp h with h | h
        · exact absurd h.symm hx
        · exact h
      rw [List.count_cons_of_ne (fun e => hx e.symm), ih hm]
      simp [List.dropWhile_cons, hx]

theorem parse_integer_split : ∀ (s : List Char) (res rv : Nat),
    ∃ ds, s = ds ++ (_parse_integer s res rv).2.2 ∧ ∀ c ∈ ds, digit_val c ≠ none := by
  intro s
  induction s with
  | nil => intro res rv; exact ⟨[], by simp [_parse_integer]⟩
  | cons x s ih =>
    intro res rv
    rw [_parse_integer]
    cases hx : digit_val x with
    | none => exact ⟨[], by simp⟩
    | some val =>
      obtain ⟨ds, h1, h2⟩ := ih (res * 10 + val) (rv + 1)
      refine ⟨x :: ds, by simp only [List.cons_append]; rw [← h1], ?_⟩
      intro c hc
      rcases List.mem_cons.mp hc with rfl | hc
      · simp [hx]
      · exact h2 c hc

theorem _kstrtoull_chars (s : List Char) (v : Nat) (h : _kstrtoull s = some v) :
    ∀ c ∈ s, digit_val c ≠ none ∨ c = '\n' := by
  obtain ⟨ds, h1, h2⟩ := parse_integer_split s 0 0
  unfold _kstrtoull at h
  generalize _parse_integer s 0 0 = r at h h1
  obtain ⟨res, rv, rest⟩ := r
  simp only at h h1
  split at h
  · cases h
  · split at h
    · cases h
    · split at h
      · cases h
      · rename_i hrest
        simp only [ne_eq, not_not] at hrest
        intro c hc
        rw [h1] at hc
        rcases List.mem_append.mp hc with hc | hc
        · exact Or.inl (h2 c hc)
        · right
          split at hrest
          · subst hrest
            simpa using hc
          · subst hrest
            simp at hc

theorem kstrtoull_chars (s : List Char) (v : Nat) (h : kstrtoull s = some v) :
    ∀ c ∈ s, digit_val c ≠ none ∨ c = '\n' ∨ c = '+' := by
  unfold kstrtoull at h
  split at h
  · intro c hc
    rcases List.mem_cons.mp hc with rfl | hc
    · exact Or.inr (Or.inr rfl)
    · rcases _kstrtoull_chars _ v h c hc with h | h
      · exact Or.inl h
      · exact Or.inr (Or.inl h)
  · intro c hc
    rcases _kstrtoull_chars _ v h c hc with h | h
    · exact Or.inl h
    · exact Or.inr (Or.inl h)

theorem kstrtoint_chars (s : List Char) (v : Int) (h : kstrtoint s = some v) :
    ∀ c ∈ s, digit_val c ≠ none ∨ c = '\n' ∨ c = '+' ∨ c = '-' := by
  unfold kstrtoint at h
  cases hll : kstrtoll s with
  | none => simp [hll] at h
  | some t =>
    clear h
    unfold kstrtoll at hll
    split at hll
    · rename_i r
      cases hu : _kstrtoull r with
      | none => simp [hu] at hll
      | some tmp =>
        intro c hc
        rcases List.mem_cons.mp hc with rfl | hc
        · exact Or.inr (Or.inr (Or.inr rfl))
        · rcases _kstrtoull_chars _ tmp hu c hc with h | h
          · exact Or.inl h
          · exact Or.inr (Or.inl h)
    · cases hu : kstrtoull s with
      | none => simp [hu] at hll
      | some tmp =>
        intro c hc
        rcases kstrtoull_chars _ tmp hu c hc with h | h | h
        · exact Or.inl h
        · exact Or.inr (Or.inl h)
        · exact Or.inr (Or.inr (Or.inl h))

theorem kstrtoint_no_colon (s : List Char) (v : Int) (h : kstrtoint s = some v) :
    ':' ∉ s := by
  intro hc
  rcases kstrtoint_chars s v h ':' hc with h | h | h | h
  · exact h (by decide)
  · exact absurd h (by decide)
  · exact absurd h (by decide)
  · exact absurd h (by decide)

theorem parse_entry_eq_none_iff (item : List Char) :
    parse_entry item = none ↔ malformed item = true := by
  unfold parse_entry malformed item_key item_count
  generalize item.dropWhile (· = ' ') = e
  by_cases hc : ':' ∈ e
  · rw [strchr_split_some ':' e hc]
    have hcount := count_after_split ':' e hc
    simp only
    cases hk : kstrtoint (e.takeWhile (· ≠ ':')) with
    | none => simp
    | some k =>
      cases hm : kstrtoint ((e.dropWhile (· ≠ ':')).drop 1) with
      | none => simp
      | some m =>
        have hno := kstrtoint_no_colon _ m hm
        have h0 : ((e.dropWhile (· ≠ ':')).drop 1).count ':' = 0 :=
          List.count_eq_zero_of_not_mem hno
        have h1 : e.count ':' = 1 := by omega
        simp [h1, MAX_UIO_PER_DEV]
        omega
  · rw [strchr_split_none ':' e hc]
    simp [List.count_eq_zero_of_not_mem hc]

theorem parse_entry_well_formed (item : List Char) (h : malformed item = false) :
    parse_entry item = some (item_entry item) := by
  unfold malformed at h
  unfold parse_entry item_entry
  unfold item_key item_count at h ⊢
  generalize item.dropWhile (· = ' ') = e at h ⊢
  simp only [Bool.or_eq_false_iff, decide_eq_false_iff_not] at h
  obtain ⟨⟨⟨h0, _⟩, hk⟩, hm⟩ := h
  have hc : ':' ∈ e := by
    by_contra hcon
    exact h0 (List.count_eq_zero_of_not_mem hcon)
  rw [strchr_split_some ':' e hc]
  simp only
  cases hk' : kstrtoint (e.takeWhile (· ≠ ':')) with
  | none => rw [hk'] at hk; cases hk
  | some k =>
    cases hm' : kstrtoint ((e.dropWhile (· ≠ ':')).drop 1) with
    | none => rw [hm'] at hm; cases hm
    | some m =>
      rw [hm'] at hm
      simp only [Bool.or_eq_false_iff, decide_eq_false_iff_not] at hm
      have : ¬ (m < 1 ∨ m > MAX_UIO_PER_DEV) := by
        unfold MAX_UIO_PER_DEV
        omega
      simp [this]

/-! ## Claims about `parse_region_config` -/

theorem parse_region_config_items (text : List Char) (g : Globals) (h : text ≠ []) :
    parse_region_config (some text) true g =
      match store_items MAX_IVSHMEM_REGION 0 (items text) g.configs with
      | .done i configs => (0, ⟨configs, i⟩)
      | .error configs => (-EINVAL, ⟨configs, g.num_configs⟩) := by
  cases text with
  | nil => exact absurd rfl h
  | cons c t =>
    simp only [parse_region_config, Bool.not_true, Bool.false_eq_true, if_false]
    rw [parse_loop_items]

theorem config_items_ne_nil (text : List Char) (j : Nat) (it : List Char)
    (hit : (config_items text)[j]? = some it) : text ≠ [] ∧ (items text)[j]? = some it := by
  cases text with
  | nil => simp [config_items] at hit
  | cons c t => exact ⟨by simp, hit⟩

theorem parse_region_config_error (text : List Char) (g : Globals) (j : Nat) (it : List Char)
    (hj : j < 10) (hit : (config_items text)[j]? = some it) (hbad : malformed it = true) :
    ∃ c', parse_region_config (some text) true g = (-EINVAL, ⟨c', g.num_configs⟩) := by
  obtain ⟨hne, hit'⟩ := config_items_ne_nil text j it hit
  obtain ⟨c', hc'⟩ := store_items_error MAX_IVSHMEM_REGION 0 (items text) g.configs j it hj hit'
    ((parse_entry_eq_none_iff it).mpr hbad)
  exact ⟨c', by rw [parse_region_config_items text g hne, hc']⟩

theorem parse_region_config_enomem (text : List Char) (g : Globals) (h : text ≠ []) :
    parse_region_config (some text) false g = (-ENOMEM, g) := by
  cases text with
  | nil => exact absurd rfl h
  | cons c t => simp [parse_region_config]

/-- C5 as stated fails: ten well-formed items followed by the malformed
item `x`.  The text is not empty and its eleventh item is malformed, yet
`parse_region_config` returns 0 with a table of ten entries. -/
theorem C5_counterexample_late_malformed_item :
    (config_items "1:1,2:1,3:1,4:1,5:1,6:1,7:1,8:1,9:1,10:1,x".toList)[10]? = some ['x'] ∧
    malformed ['x'] = true ∧
    (parse_region_config (some "1:1,2:1,3:1,4:1,5:1,6:1,7:1,8:1,9:1,10:1,x".toList) true
      Globals.init).1 = 0 ∧
    (parse_region_config (some "1:1,2:1,3:1,4:1,5:1,6:1,7:1,8:1,9:1,10:1,x".toList) true
      Globals.init).2.table.length = 10 := by
  decide

/-- C5 (P2, fail-fast), amended.  For every configuration text one of whose
first 10 comma-separated items is malformed (no colon, more than one colon,
a side that `kstrtoint` rejects, or a count outside 1..5),
`parse_region_config` returns an error (`-EINVAL`, or `-ENOMEM` when the
text cannot be copied), whatever the other items are, and leaves
`num_configs` unchanged, so no table becomes usable; parsing the same text
again, starting from the statics the failed call left, fails with the same
error. -/
theorem C5_fail_fast (text : List Char) (kstrdup_ok : Bool) (g : Globals) (j : Nat)
    (it : List Char) (hj : j < 10) (hit : (config_items text)[j]? = some it)
    (hbad : malformed it = true) :
    (parse_region_config (some text) kstrdup_ok g).1 ≠ 0 ∧
    (parse_region_config (some text) kstrdup_ok g).1 =
      (if kstrdup_ok then -EINVAL else -ENOMEM) ∧
    (parse_region_config (some text) kstrdup_ok g).2.num_configs = g.num_configs ∧
    (parse_region_config (some text) kstrdup_ok
      (parse_region_config (some text) kstrdup_ok g).2).1 =
        (parse_region_config (some text) kstrdup_ok g).1 := by
  cases kstrdup_ok with
  | false =>
    have hne := (config_items_ne_nil text j it hit).1
    simp [parse_region_config_enomem text _ hne, ENOMEM]
  | true =>
    obtain ⟨c', h1⟩ := parse_region_config_error text g j it hj hit hbad
    obtain ⟨c'', h2⟩ := parse_region_config_error text ⟨c', g.num_configs⟩ j it hj hit hbad
    rw [h1]
    simp only [h2]
    simp [EINVAL]

/-- C5 (amended) at the text `4:5,x,7:2`, whose second item is malformed. -/
theorem C5_fail_fast_witness :
    (parse_region_config (some "4:5,x,7:2".toList) true Globals.init).1 =
      (if true = true then -EINVAL else -ENOMEM) :=
  (C5_fail_fast "4:5,x,7:2".toList true Globals.init 1 ['x'] (by decide) (by decide)
    (by decide)).2.1

theorem parse_error_copied (text : List Char) (g : Globals) (j : Nat) (it : List Char)
    (hj : j < 10) (hit : (config_items text)[j]? = some it) (hbad : malformed it = true) :
    (parse_region_config (some text) true g).1 = -EINVAL ∧
    (parse_region_config (some text) true g).2.num_configs = g.num_configs ∧
    (g.num_configs = 0 →
      (parse_region_config (some text) true g).2.table = [] ∧
      ∀ key, probe_lookup (parse_region_config (some text) true g).2.configs key
        (parse_region_config (some text) true g).2.num_configs 0 = 1) ∧
    (malformed "4:6".toList = true ∧
      parse_region_config (some "4:6".toList) true Globals.init = (-EINVAL, Globals.init)) ∧
    (malformed "abc:2".toList = true ∧
      parse_region_config (some "abc:2".toList) true Globals.init = (-EINVAL, Globals.init)) := by
  obtain ⟨c', h1⟩ := parse_region_config_error text g j it hj hit hbad
  rw [h1]
  refine ⟨rfl, rfl, ?_, by decide, by decide⟩
  intro h0
  simp only [Globals.table, h0]
  exact ⟨by simp, fun key => rfl⟩

theorem parse_truncated_copied (text : List Char) (g : Globals) (hg : g.configs.length = 10)
    (hlen : 10 < (config_items text).length)
    (hwf : ∀ it ∈ config_items text, malformed it = false) :
    (parse_region_config (some text) true g).1 = 0 ∧
    (parse_region_config (some text) true g).2.num_configs = 10 ∧
    (parse_region_config (some text) true g).2.table.length = 10 ∧
    (parse_region_config (some text) true g).2.table =
      ((config_items text).take 10).map item_entry := by
  have hne : text ≠ [] := by
    intro h
    rw [h] at hlen
    simp [config_items] at hlen
  have hci : config_items text = items text := by
    cases text with
    | nil => exact absurd rfl hne
    | cons c t => rfl
  rw [hci] at hlen hwf ⊢
  have hlt : ((items text).take 10).length = 10 := by
    rw [List.length_take]; omega
  rw [parse_region_config_items text g hne,
    store_items_ok MAX_IVSHMEM_REGION 0 (items text) g.configs
      (fun it hit => parse_entry_well_formed it (hwf it (List.mem_of_mem_take hit)))]
  simp only [MAX_IVSHMEM_REGION, hlt, Globals.table, Nat.zero_add]
  have ht := take_write_entries (((items text).take 10).map item_entry) g.configs 0
    (by rw [List.length_map, hlt, hg])
  rw [List.length_map, hlt, Nat.zero_add] at ht
  rw [ht]
  simp [hlt]
  omega

/-! ## Decimal text and `kstrtoint` -/

theorem digit_val_digit_char (d : Nat) (h : d < 10) : digit_val (digit_char d) = some d := by
  interval_cases d <;> decide

theorem digit_char_ne (d : Nat) (h : d < 10) :
    digit_char d ≠ ',' ∧ digit_char d ≠ ':' ∧ digit_char d ≠ ' ' ∧ digit_char d ≠ '-' ∧
      digit_char d ≠ '+' := by
  interval_cases d <;> decide

theorem foldl_rev_digits : ∀ (L : List Nat),
    (L.reverse).foldl (fun a d => a * 10 + d) 0 = Nat.ofDigits 10 L := by
  intro L
  induction L with
  | nil => simp
  | cons x L ih =>
    rw [List.reverse_cons, List.foldl_append, ih, Nat.ofDigits_cons]
    simp; ring

theorem parse_integer_digits : ∀ (ds : List Nat) (res rv : Nat), (∀ d ∈ ds, d < 10) →
    _parse_integer (ds.map digit_char) res rv =
      (ds.foldl (fun a d => a * 10 + d) res, rv + ds.length, []) := by
  intro ds
  induction ds with
  | nil => intro res rv _; simp [_parse_integer]
  | cons d ds ih =>
    intro res rv h
    rw [List.map_cons, _parse_integer, digit_val_digit_char d (h d (by simp))]
    simp only
    rw [ih _ _ (fun x hx => h x (by simp [hx]))]
    simp [Nat.add_assoc, Nat.add_comm 1]

theorem _kstrtoull_decimal_nat (n : Nat) (h : n < 2 ^ 64) :
    _kstrtoull (decimal_nat n) = some n := by
  by_cases h0 : n = 0
  · subst h0
    decide
  · have hd : ∀ d ∈ (Nat.digits 10 n).reverse, d < 10 := by
      intro d hd
      exact Nat.digits_lt_base (by norm_num) (List.mem_reverse.mp hd)
    have hlen : (Nat.digits 10 n).length ≠ 0 := by
      intro hl
      exact (Nat.digits_ne_nil_iff_ne_zero.mpr h0) (List.length_eq_zero.mp hl)
    have hn : ¬ 2 ^ 64 ≤ n := by omega
    unfold _kstrtoull decimal_nat
    rw [if_neg h0, parse_integer_digits _ 0 0 hd, foldl_rev_digits, Nat.ofDigits_digits]
    simp [hn, hlen]
    omega

theorem decimal_nat_chars (n : Nat) : ∀ c ∈ decimal_nat n, ∃ d, d < 10 ∧ c = digit_char d := by
  intro c hc
  unfold decimal_nat at hc
  split at hc
  · exact ⟨0, by norm_num, by simpa using hc⟩
  · obtain ⟨d, hd, rfl⟩ := List.mem_map.mp hc
    exact ⟨d, Nat.digits_lt_base (by norm_num) (List.mem_reverse.mp hd), rfl⟩

theorem decimal_nat_ne_nil (n : Nat) : decimal_nat n ≠ [] := by
  unfold decimal_nat
  split
  · simp
  · rename_i h0
    simp only [ne_eq, List.map_eq_nil_iff, List.reverse_eq_nil_iff]
    exact Nat.digits_ne_nil_iff_ne_zero.mpr h0

theorem decimal_chars (k : Int) : ∀ c ∈ decimal k, c = '-' ∨ ∃ d, d < 10 ∧ c = digit_char d := by
  intro c hc
  unfold decimal at hc
  split at hc
  · rcases List.mem_cons.mp hc with h | h
    · exact Or.inl h
    · exact Or.inr (decimal_nat_chars _ c h)
  · exact Or.inr (decimal_nat_chars _ c hc)

theorem decimal_ne_nil (k : Int) : decimal k ≠ [] := by
  unfold decimal
  split
  · simp
  · exact decimal_nat_ne_nil _

theorem decimal_not_mem (k : Int) : ',' ∉ decimal k ∧ ':' ∉ decimal k ∧ ' ' ∉ decimal k := by
  refine ⟨?_, ?_, ?_⟩ <;> intro hc <;> rcases decimal_chars k _ hc with h | ⟨d, hd, h⟩
  · exact absurd h (by decide)
  · exact (digit_char_ne d hd).1 h.symm
  · exact absurd h (by decide)
  · exact (digit_char_ne d hd).2.1 h.symm
  · exact absurd h (by decide)
  · exact (digit_char_ne d hd).2.2.1 h.symm

theorem kstrtoll_decimal_nat (n : Nat) (h : n < 2 ^ 63) :
    kstrtoll (decimal_nat n) = some (n : Int) := by
  have hne := decimal_nat_ne_nil n
  have hch := decimal_nat_chars n
  have hu := _kstrtoull_decimal_nat n (by omega)
  generalize decimal_nat n = s at hne hch hu
  have hkull : kstrtoull s = some n := by
    unfold kstrtoull
    split
    · obtain ⟨d, hd, he⟩ := hch '+' (by simp)
      exact absurd he.symm (digit_char_ne d hd).2.2.2.2
    · exact hu
  unfold kstrtoll
  split
  · obtain ⟨d, hd, he⟩ := hch '-' (by simp)
    exact absurd he.symm (digit_char_ne d hd).2.2.2.1
  · rw [hkull]
    have : ¬ 2 ^ 63 ≤ n := by omega
    simp [this]
    omega

theorem kstrtoint_decimal (k : Int) (h1 : -(2 ^ 31) ≤ k) (h2 : k < 2 ^ 31) :
    kstrtoint (decimal k) = some k := by
  unfold kstrtoint decimal
  by_cases hk : k < 0
  · rw [if_pos hk]
    have hu := _kstrtoull_decimal_nat k.natAbs (by omega)
    have hle : ¬ 2 ^ 63 < k.natAbs := by omega
    have hcast : -((k.natAbs : Nat) : Int) = k := by omega
    simp only [kstrtoll, hu, hle, if_false, hcast]
    have : ¬ (k < -(2 ^ 31) ∨ 2 ^ 31 ≤ k) := by omega
    simp [this]
    omega
  · rw [if_neg hk, kstrtoll_decimal_nat k.natAbs (by omega)]
    have hcast : ((k.natAbs : Nat) : Int) = k := by omega
    simp only [hcast]
    have : ¬ (k < -(2 ^ 31) ∨ 2 ^ 31 ≤ k) := by omega
    simp [this]
    omega

/-! ## Rendered entries parse back -/

theorem dropWhile_of_not_mem (l : List Char) (h : ' ' ∉ l) :
    l.dropWhile (· = ' ') = l := by
  cases l with
  | nil => rfl
  | cons x l =>
    have hx : ¬ x = ' ' := fun e => h (by simp [e])
    simp [List.dropWhile_cons, hx]

theorem strchr_split_append (c : Char) : ∀ (a b : List Char), c ∉ a →
    strchr_split c (a ++ c :: b) = some (a, b) := by
  intro a
  induction a with
  | nil => intro b _; simp [strchr_split]
  | cons x a ih =>
    intro b h
    simp only [List.mem_cons, not_or] at h
    have hx : ¬ x = c := fun e => h.1 e.symm
    rw [List.cons_append, strchr_split, if_neg hx, ih b h.2]

theorem parse_entry_render_entry (e : ivshmem_region_config)
    (hk1 : -(2 ^ 31) ≤ e.region_id) (hk2 : e.region_id < 2 ^ 31)
    (hc1 : 1 ≤ e.num_uios) (hc5 : e.num_uios ≤ 5) :
    parse_entry (render_entry e) = some e := by
  have hsp : ' ' ∉ render_entry e := by
    unfold render_entry
    intro h
    rcases List.mem_append.mp h with h | h
    · exact (decimal_not_mem _).2.2 h
    · rcases List.mem_cons.mp h with h | h
      · exact absurd h (by decide)
      · exact (decimal_not_mem _).2.2 h
  unfold parse_entry
  rw [dropWhile_of_not_mem _ hsp]
  unfold render_entry
  rw [strchr_split_append ':' _ _ (decimal_not_mem _).2.1]
  simp only
  rw [kstrtoint_decimal _ hk1 hk2, kstrtoint_decimal _ (by omega) (by omega)]
  have : ¬ (e.num_uios < 1 ∨ e.num_uios > MAX_UIO_PER_DEV) := by
    unfold MAX_UIO_PER_DEV
    omega
  simp [this]

theorem items_of_no_comma : ∀ (a : List Char), ',' ∉ a → items a = [a] := by
  intro a h
  have := strchr_split_items a
  rw [strchr_split_none ',' a h] at this
  exact this

theorem items_append_comma (a b : List Char) (h : ',' ∉ a) :
    items (a ++ ',' :: b) = a :: items b := by
  have := strchr_split_items (a ++ ',' :: b)
  rw [strchr_split_append ',' a b h] at this
  exact this

theorem render_entry_no_comma (e : ivshmem_region_config) : ',' ∉ render_entry e := by
  unfold render_entry
  intro h
  rcases List.mem_append.mp h with h | h
  · exact (decimal_not_mem _).1 h
  · rcases List.mem_cons.mp h with h | h
    · exact absurd h (by decide)
    · exact (decimal_not_mem _).1 h

theorem items_render : ∀ (es : List ivshmem_region_config), es ≠ [] →
    items (render es) = es.map render_entry := by
  intro es
  induction es with
  | nil => intro h; exact absurd rfl h
  | cons e es ih =>
    intro _
    cases es with
    | nil => simp [render, items_of_no_comma _ (render_entry_no_comma e)]
    | cons e' es =>
      rw [render, items_append_comma _ _ (render_entry_no_comma e), ih (by simp)]
      simp

theorem render_ne_nil : ∀ (es : List ivshmem_region_config), es ≠ [] → render es ≠ [] := by
  intro es h
  cases es with
  | nil => exact absurd rfl h
  | cons e es =>
    cases es with
    | nil => simp [render, render_entry]
    | cons e' es => simp [render]

theorem item_entry_render_entry (e : ivshmem_region_config)
    (hk1 : -(2 ^ 31) ≤ e.region_id) (hk2 : e.region_id < 2 ^ 31)
    (hc1 : 1 ≤ e.num_uios) (hc5 : e.num_uios ≤ 5) :
    malformed (render_entry e) = false ∧ item_entry (render_entry e) = e := by
  have hp := parse_entry_render_entry e hk1 hk2 hc1 hc5
  have hm : malformed (render_entry e) = false := by
    cases hmal : malformed (render_entry e) with
    | false => rfl
    | true =>
      rw [(parse_entry_eq_none_iff _).mpr hmal] at hp
      cases hp
  refine ⟨hm, ?_⟩
  have := parse_entry_well_formed _ hm
  rw [hp] at this
  exact (Option.some.inj this).symm

theorem parse_rendered_copied (es : List ivshmem_region_config) (g : Globals)
    (hg : g.configs.length = 10) (hk1 : 1 ≤ es.length) (hk10 : es.length ≤ 10)
    (hvalid : ∀ e ∈ es, -(2 ^ 31) ≤ e.region_id ∧ e.region_id < 2 ^ 31 ∧
      1 ≤ e.num_uios ∧ e.num_uios ≤ 5) :
    (parse_region_config (some (render es)) true g).1 = 0 ∧
    (parse_region_config (some (render es)) true g).2.num_configs = es.length ∧
    (parse_region_config (some (render es)) true g).2.table = es ∧
    (render [⟨4, 5⟩, ⟨7, 2⟩] = "4:5,7:2".toList ∧
      (parse_region_config (some "4:5,7:2".toList) true Globals.init).1 = 0 ∧
      (parse_region_config (some "4:5,7:2".toList) true Globals.init).2.table =
        [⟨4, 5⟩, ⟨7, 2⟩]) ∧
    ((∀ b, parse_region_config (some []) b Globals.init = (0, Globals.init)) ∧
      Globals.init.table = []) := by
  have hes : es ≠ [] := by
    intro h
    rw [h] at hk1
    simp at hk1
  have htake : (es.map render_entry).take MAX_IVSHMEM_REGION = es.map render_entry := by
    apply List.take_of_length_le
    simp [MAX_IVSHMEM_REGION, hk10]
  have hmap : (es.map render_entry).map item_entry = es := by
    rw [List.map_map]
    conv => rhs; rw [← List.map_id es]
    apply List.map_congr_left
    intro e he
    obtain ⟨a, b, c, d⟩ := hvalid e he
    exact (item_entry_render_entry e a b c d).2
  have hstore := store_items_ok MAX_IVSHMEM_REGION 0 (items (render es)) g.configs (by
    rw [items_render es hes, htake]
    intro it hit
    obtain ⟨e, he, rfl⟩ := List.mem_map.mp hit
    obtain ⟨a, b, c, d⟩ := hvalid e he
    exact parse_entry_well_formed _ (item_entry_render_entry e a b c d).1)
  rw [items_render es hes, htake, hmap] at hstore
  rw [parse_region_config_items _ g (render_ne_nil es hes), items_render es hes, hstore]
  have ht := take_write_entries es g.configs 0 (by omega)
  simp only [Nat.zero_add, List.take_zero, List.nil_append] at ht
  refine ⟨rfl, by simp, ?_, ⟨?_, by decide, by decide⟩, ⟨fun b => rfl, by decide⟩⟩
  · simp only [Globals.table, List.length_map, Nat.zero_add]
    exact ht
  · simp [render, render_entry, decimal, decimal_nat, digit_char]

/-! ## Bounds on the parsed table -/

theorem parse_entry_valid (it : List Char) (e : ivshmem_region_config)
    (h : parse_entry it = some e) : 1 ≤ e.num_uios ∧ e.num_uios ≤ 5 := by
  unfold parse_entry at h
  split at h
  · cases h
  · split at h
    · split at h
      · cases h
      · rename_i hr
        cases h
        unfold MAX_UIO_PER_DEV at hr
        simp only
        omega
    · cases h

theorem store_items_bound : ∀ (slots i : Nat) (its : List (List Char))
    (c : List ivshmem_region_config),
    (∀ e ∈ c.take i, 1 ≤ e.num_uios ∧ e.num_uios ≤ 5) → i + slots ≤ c.length →
    ∀ i' c', store_items slots i its c = .done i' c' →
      i' ≤ i + slots ∧ c'.length = c.length ∧
        ∀ e ∈ c'.take i', 1 ≤ e.num_uios ∧ e.num_uios ≤ 5 := by
  intro slots
  induction slots with
  | zero =>
    intro i its c hv _ i' c' h
    simp only [store_items, ParseLoop.done.injEq] at h
    obtain ⟨rfl, rfl⟩ := h
    exact ⟨by omega, rfl, hv⟩
  | succ slots ih =>
    intro i its c hv hlen i' c' h
    cases its with
    | nil =>
      simp only [store_items, ParseLoop.done.injEq] at h
      obtain ⟨rfl, rfl⟩ := h
      exact ⟨by omega, rfl, hv⟩
    | cons a its =>
      rw [store_items] at h
      cases ha : parse_entry a with
      | none => rw [ha] at h; cases h
      | some e =>
        rw [ha] at h
        simp only at h
        have hv' : ∀ x ∈ (c.set i e).take (i + 1), 1 ≤ x.num_uios ∧ x.num_uios ≤ 5 := by
          intro x hx
          rw [take_set_succ c i e (by omega)] at hx
          rcases List.mem_append.mp hx with hx | hx
          · exact hv x hx
          · simp only [List.mem_singleton] at hx
            subst hx
            exact parse_entry_valid a x ha
        obtain ⟨b1, b2, b3⟩ := ih (i + 1) its (c.set i e) hv'
          (by rw [List.length_set]; omega) i' c' h
        exact ⟨by omega, by rw [b2, List.length_set], b3⟩

theorem parse_region_config_bound (region_config : Option (List Char)) (kstrdup_ok : Bool) :
    (parse_region_config region_config kstrdup_ok Globals.init).2.num_configs ≤ 10 ∧
    (parse_region_config region_config kstrdup_ok Globals.init).2.configs.length = 10 ∧
    ∀ e ∈ (parse_region_config region_config kstrdup_ok Globals.init).2.table,
      1 ≤ e.num_uios ∧ e.num_uios ≤ 5 := by
  have hinit : Globals.init.num_configs ≤ 10 ∧ Globals.init.configs.length = 10 ∧
      ∀ e ∈ Globals.init.table, 1 ≤ e.num_uios ∧ e.num_uios ≤ 5 := by
    refine ⟨by decide, by decide, ?_⟩
    intro e he
    simp [Globals.table, Globals.init] at he
  cases region_config with
  | none => exact hinit
  | some text =>
    cases text with
    | nil => exact hinit
    | cons ch t =>
      cases kstrdup_ok with
      | false => rw [parse_region_config_enomem _ _ (by simp)]; exact hinit
      | true =>
        rw [parse_region_config_items _ _ (by simp)]
        cases hs : store_items MAX_IVSHMEM_REGION 0 (items (ch :: t)) Globals.init.configs with
        | error c' =>
          simp only [Globals.table]
          refine ⟨by decide, ?_, ?_⟩
          · -- the array keeps its ten slots also on the error path
            have : ∀ (slots i : Nat) (its : List (List Char)) (c c' : List ivshmem_region_config),
                store_items slots i its c = .error c' → c'.length = c.length := by
              intro slots
              induction slots with
              | zero => intro i its c c' h; simp [store_items] at h
              | succ slots ih =>
                intro i its c c' h
                cases its with
                | nil => simp [store_items] at h
                | cons a its =>
                  rw [store_items] at h
                  cases ha : parse_entry a with
                  | none =>
                    rw [ha] at h
                    simp only [ParseLoop.error.injEq] at h
                    rw [← h]
                  | some e =>
                    rw [ha] at h
                    simp only at h
                    rw [ih _ _ _ _ h, List.length_set]
            rw [this _ _ _ _ _ hs]
            decide
          · intro e he
            simp [Globals.init] at he
        | done i' c' =>
          obtain ⟨b1, b2, b3⟩ := store_items_bound MAX_IVSHMEM_REGION 0 (items (ch :: t))
            Globals.init.configs (by simp) (by decide) i' c' hs
          exact ⟨by simpa [MAX_IVSHMEM_REGION] using b1, by rw [b2]; decide, b3⟩

/-- C11 (P1, table bound).  For every configuration text (or a NULL
parameter), whether the copy of the text succeeds or not, after
`parse_region_config` has run on the statics of module load, successfully or
not, `num_configs` is at most 10 and each of the first `num_configs` entries
of `configs` has `num_uios` in 1..5. -/
theorem C11_table_bound (region_config : Option (List Char)) (kstrdup_ok : Bool) :
    (parse_region_config region_config kstrdup_ok Globals.init).2.num_configs ≤ 10 ∧
    ∀ e ∈ (parse_region_config region_config kstrdup_ok Globals.init).2.table,
      1 ≤ e.num_uios ∧ e.num_uios ≤ 5 :=
  ⟨(parse_region_config_bound region_config kstrdup_ok).1,
    (parse_region_config_bound region_config kstrdup_ok).2.2⟩

theorem lookup_spec_range (t : List ivshmem_region_config) (key : Int)
    (h : ∀ e ∈ t, 1 ≤ e.num_uios ∧ e.num_uios ≤ 5) :
    1 ≤ lookup_spec t key ∧ lookup_spec t key ≤ 5 := by
  unfold lookup_spec
  cases hf : t.find? (fun e => e.region_id = key) with
  | none => simp
  | some e => exact h e (List.mem_of_find?_eq_some hf)

theorem resolved_count_range (region_config : Option (List Char)) (kstrdup_ok : Bool)
    (key : Int) :
    1 ≤ probe_lookup (parse_region_config region_config kstrdup_ok Globals.init).2.configs key
      (parse_region_config region_config kstrdup_ok Globals.init).2.num_configs 0 ∧
    probe_lookup (parse_region_config region_config kstrdup_ok Globals.init).2.configs key
      (parse_region_config region_config kstrdup_ok Globals.init).2.num_configs 0 ≤ 5 := by
  obtain ⟨b1, b2, b3⟩ := parse_region_config_bound region_config kstrdup_ok
  rw [probe_lookup_drop _ key _ 0 (by omega)]
  simp only [List.drop_zero]
  exact lookup_spec_range _ key b3

/-- C12 (end-to-end endpoint-count invariant).  For every configuration
text on which `parse_region_config` returns 0 and every device key, the
endpoint count that `probe` resolves lies in 1..5; and when `probe` returns
0 the device record it publishes stores this count in `num_uios` and has
that many endpoints. -/
theorem C12_endpoint_count_invariant (region_config : Option (List Char)) (kstrdup_ok : Bool)
    (env : Env) (pdev : pci_dev)
    (h : (parse_region_config region_config kstrdup_ok Globals.init).1 = 0) :
    (∀ key : Int,
      1 ≤ probe_lookup (parse_region_config region_config kstrdup_ok Globals.init).2.configs key
        (parse_region_config region_config kstrdup_ok Globals.init).2.num_configs 0 ∧
      probe_lookup (parse_region_config region_config kstrdup_ok Globals.init).2.configs key
        (parse_region_config region_config kstrdup_ok Globals.init).2.num_configs 0 ≤ 5) ∧
    ((probe (parse_region_config region_config kstrdup_ok Globals.init).2 env pdev
        Kernel.init).1 = 0 →
      ∃ iv, (probe (parse_region_config region_config kstrdup_ok Globals.init).2 env pdev
          Kernel.init).2.drvdata = some iv ∧
        iv.num_uios = probe_lookup
          (parse_region_config region_config kstrdup_ok Globals.init).2.configs
          (pdev.subsystem_device : Int)
          (parse_region_config region_config kstrdup_ok Globals.init).2.num_configs 0 ∧
        1 ≤ iv.num_uios ∧ iv.num_uios ≤ 5 ∧ (iv.uios.length : Int) = iv.num_uios) := by
  refine ⟨fun key => resolved_count_range region_config kstrdup_ok key, ?_⟩
  intro h0
  obtain ⟨r1, r2⟩ := resolved_count_range region_config kstrdup_ok (pdev.subsystem_device : Int)
  generalize (parse_region_config region_config kstrdup_ok Globals.init).2 = g at h0 r1 r2 ⊢
  obtain ⟨n, hn⟩ : ∃ n : Nat,
      probe_lookup g.configs (pdev.subsystem_device : Int) g.num_configs 0 = (n : Int) :=
    ⟨(probe_lookup g.configs (pdev.subsystem_device : Int) g.num_configs 0).toNat,
      (Int.toNat_of_nonneg (by omega)).symm⟩
  rw [hn] at r1 r2 ⊢
  have h1 : 1 ≤ n := by exact_mod_cast r1
  obtain ⟨he, hr, hq, hok⟩ := probe_zero_ok g env pdev n hn h1 h0
  rw [probe_success g env pdev n hn h1 he hr hq hok]
  exact ⟨_, rfl, rfl, r1, r2, by simp⟩

/-- C12 at the text `4:5,7:2` and key 7. -/
theorem C12_endpoint_count_invariant_witness :
    1 ≤ probe_lookup
        (parse_region_config (some "4:5,7:2".toList) true Globals.init).2.configs 7
        (parse_region_config (some "4:5,7:2".toList) true Globals.init).2.num_configs 0 ∧
      probe_lookup
        (parse_region_config (some "4:5,7:2".toList) true Globals.init).2.configs 7
        (parse_region_config (some "4:5,7:2".toList) true Globals.init).2.num_configs 0 ≤ 5 :=
  (C12_endpoint_count_invariant (some "4:5,7:2".toList) true Env.good (pci_dev.sample 7)
    (by decide)).1 7

/-- C13 (vector-allocation failure).  For every endpoint count `n` in 1..5,
if the device is enabled and its regions are claimed but fewer than `n`
interrupt vectors can be granted, `probe` returns `-ENODEV`; the only calls
it made are the two allocations, the enabling, the claim, the failed vector
request and then the release of the regions, the disabling and the two
frees, so no endpoint was registered and no register mapping created; on
return nothing is held (no regions, no enabling, no vector, no record) and
no release hit something not held. -/
theorem C13_vector_allocation_failure (g : Globals) (env : Env) (pdev : pci_dev) (n : Nat)
    (hn : probe_lookup g.configs (pdev.subsystem_device : Int) g.num_configs 0 = (n : Int))
    (h1 : 1 ≤ n) (h5 : n ≤ 5) (he : env.enable_ok = true) (hr : env.regions_ok = true)
    (hq : env.irq_avail < n) :
    (probe g env pdev Kernel.init).1 = -ENODEV ∧
    (probe g env pdev Kernel.init).2.log =
      [.acquire .ivshmem true, .acquire .uios true, .acquire .enabled true,
        .acquire .regions true, .acquire (.irq_vectors n) false,
        .release .regions, .release .enabled, .release .uios, .release .ivshmem] ∧
    (probe g env pdev Kernel.init).2.log.filterMap Call.register_attempt = [] ∧
    (probe g env pdev Kernel.init).2.registered = [] ∧
    (probe g env pdev Kernel.init).2.held = [] ∧
    (probe g env pdev Kernel.init).2.bad_release = 0 ∧
    (probe g env pdev Kernel.init).2.drvdata = none := by
  have c1 : (1 : Int) ≤ (n : Int) := by exact_mod_cast h1
  have c2 : ¬ (n : Int) ≤ (env.irq_avail : Int) := by
    intro hcon
    have : n ≤ env.irq_avail := by exact_mod_cast hcon
    omega
  have c3 : (-28 : Int) < (n : Int) := by omega
  have hp : probe g env pdev Kernel.init =
      (-ENODEV, ⟨[], [.acquire .ivshmem true, .acquire .uios true, .acquire .enabled true,
        .acquire .regions true, .acquire (.irq_vectors n) false,
        .release .regions, .release .enabled, .release .uios, .release .ivshmem],
        0, false, none⟩) := by
    simp [probe, hn, he, hr, pci_enable_device, pci_request_regions, pci_alloc_irq_vectors,
      c1, c2, c3, ENOSPC, probe_error_release, probe_error, pci_release_regions,
      pci_disable_device, kfree, kmalloc, release, acquire, acquire_fail, Kernel.init]
  rw [hp]
  exact ⟨rfl, rfl, by simp [Call.register_attempt], rfl, rfl, rfl, rfl⟩

/-- C13 with table `[{7,3}]`, key 7 and only 2 vectors available. -/
theorem C13_vector_allocation_failure_witness :
    (probe ⟨[⟨7, 3⟩], 1⟩ { Env.good with irq_avail := 2 } (pci_dev.sample 7) Kernel.init).1 =
      -ENODEV :=
  (C13_vector_allocation_failure ⟨[⟨7, 3⟩], 1⟩ { Env.good with irq_avail := 2 }
    (pci_dev.sample 7) 3 (by decide) (by decide) (by decide) rfl rfl (by decide)).1

/-! ## Claims about `irqhandler` and `ivshmem_init` -/

/-- C14 (InterruptRouter decision).  For every endpoint: when the device's
`msix_enabled` flag is set, `irqhandler` returns `IRQ_HANDLED` and reads no
register; otherwise it reads exactly the 32-bit register at offset `0x04` of
the endpoint's own register mapping and returns `IRQ_NONE` if bit 0 of the
value is clear and `IRQ_HANDLED` if it is set; in both modes the kernel
state is left as it was. -/
theorem C14_irqhandler_decision (hw : IrqEnv) (i : Nat) (s : Kernel) :
    (hw.msix_enabled = true → irqhandler hw i s = (.IRQ_HANDLED, s, [])) ∧
    (hw.msix_enabled = false →
      (irqhandler hw i s).2.2 = [(.mapping i, 0x04)] ∧
      ((hw.readl (.mapping i) 0x04 % 2 ^ 32).testBit 0 = false →
        (irqhandler hw i s).1 = .IRQ_NONE) ∧
      ((hw.readl (.mapping i) 0x04 % 2 ^ 32).testBit 0 = true →
        (irqhandler hw i s).1 = .IRQ_HANDLED)) ∧
    (irqhandler hw i s).2.1 = s := by
  refine ⟨?_, ?_, ?_⟩
  · intro h
    simp [irqhandler, h]
  · intro h
    simp only [irqhandler, h, Bool.false_eq_true, if_false, Nat.and_one_is_mod]
    refine ⟨by split <;> rfl, ?_, ?_⟩
    · intro hb
      have : (hw.readl (.mapping i) 0x04 % 2 ^ 32) % 2 = 0 := by
        simp only [Nat.testBit_zero, decide_eq_false_iff_not] at hb
        omega
      rw [if_pos this]
    · intro hb
      have : ¬ (hw.readl (.mapping i) 0x04 % 2 ^ 32) % 2 = 0 := by
        simp only [Nat.testBit_zero, decide_eq_true_eq] at hb
        omega
      rw [if_neg this]
  · unfold irqhandler
    split
    · rfl
    · simp only []
      split <;> rfl

theorem parse_region_config_ret (region_config : Option (List Char)) (kstrdup_ok : Bool)
    (g : Globals) :
    ((parse_region_config region_config kstrdup_ok g).1 = 0 ∨
      (parse_region_config region_config kstrdup_ok g).1 = -EINVAL ∨
      (parse_region_config region_config kstrdup_ok g).1 = -ENOMEM) ∧
    ((parse_region_config region_config kstrdup_ok g).1 = -ENOMEM ↔
      (∃ text, region_config = some text ∧ text ≠ []) ∧ kstrdup_ok = false) := by
  cases region_config with
  | none => simp [parse_region_config, ENOMEM]
  | some text =>
    cases text with
    | nil => simp [parse_region_config, ENOMEM]
    | cons c t =>
      cases kstrdup_ok with
      | false => simp [parse_region_config_enomem]
      | true =>
        rw [parse_region_config_items _ _ (by simp)]
        cases store_items MAX_IVSHMEM_REGION 0 (items (c :: t)) g.configs with
        | done i' c' => simp [ENOMEM]
        | error c' => simp [ENOMEM, EINVAL]

/-- C16 (module load is gated on the configuration).  `ivshmem_init` calls
`pci_register_driver` if and only if `parse_region_config` returns 0, and
then returns what that call returns, the driver being registered when this
is 0.  When `parse_region_config` returns a non-zero value, which is
`-EINVAL` (for instance for a malformed or out-of-range item among the first
10) or `-ENOMEM` (exactly when a non-empty text cannot be copied),
`ivshmem_init` returns that same value without calling
`pci_register_driver`, so the driver is not registered. -/
theorem C16_module_load_gated (region_config : Option (List Char)) (kstrdup_ok : Bool)
    (register_ret : Int) (g : Globals) :
    ((ivshmem_init region_config kstrdup_ok register_ret g).register_called = true ↔
      (parse_region_config region_config kstrdup_ok g).1 = 0) ∧
    ((parse_region_config region_config kstrdup_ok g).1 = 0 →
      (ivshmem_init region_config kstrdup_ok register_ret g).ret = register_ret ∧
      ((ivshmem_init region_config kstrdup_ok register_ret g).driver_registered = true ↔
        register_ret = 0)) ∧
    ((parse_region_config region_config kstrdup_ok g).1 ≠ 0 →
      (ivshmem_init region_config kstrdup_ok register_ret g).ret =
        (parse_region_config region_config kstrdup_ok g).1 ∧
      (ivshmem_init region_config kstrdup_ok register_ret g).register_called = false ∧
      (ivshmem_init region_config kstrdup_ok register_ret g).driver_registered = false) ∧
    ((parse_region_config region_config kstrdup_ok g).1 = 0 ∨
      (parse_region_config region_config kstrdup_ok g).1 = -EINVAL ∨
      (parse_region_config region_config kstrdup_ok g).1 = -ENOMEM) ∧
    ((parse_region_config region_config kstrdup_ok g).1 = -ENOMEM ↔
      (∃ text, region_config = some text ∧ text ≠ []) ∧ kstrdup_ok = false) ∧
    (∀ text j it, j < 10 → (config_items text)[j]? = some it → malformed it = true →
      (ivshmem_init (some text) true register_ret g).ret = -EINVAL ∧
      (ivshmem_init (some text) true register_ret g).driver_registered = false) := by
  refine ⟨?_, ?_, ?_, (parse_region_config_ret region_config kstrdup_ok g).1,
    (parse_region_config_ret region_config kstrdup_ok g).2, ?_⟩
  · unfold ivshmem_init
    by_cases h : (parse_region_config region_config kstrdup_ok g).1 = 0
    · simp [h]
    · simp [h]
  · intro h
    unfold ivshmem_init
    simp [h]
  · intro h
    unfold ivshmem_init
    simp [h]
  · intro text j it hj hit hbad
    obtain ⟨c', hc'⟩ := parse_region_config_error text g j it hj hit hbad
    unfold ivshmem_init
    simp [hc', EINVAL]

/-! ## Claims about the failure paths of `probe` -/

/-- C17 (step-2 failure), at a failing input.  With the default endpoint
count, `pci_enable_device` succeeding and `pci_request_regions` failing,
`probe` returns `-ENODEV` having allocated no vector, created no mapping and
registered no endpoint, and having freed the endpoint array and the device
record; but it never calls `pci_disable_device`, so the enabling is still
held on return and the ledger is not the ledger before `probe`. -/
theorem C17_request_regions_failure_leaves_device_enabled :
    probe Globals.init { Env.good with regions_ok := false } (pci_dev.sample 7) Kernel.init =
      (-ENODEV,
        ⟨[.enabled],
          [.acquire .ivshmem true, .acquire .uios true, .acquire .enabled true,
            .acquire .regions false, .release .uios, .release .ivshmem],
          0, false, none⟩) ∧
    (probe Globals.init { Env.good with regions_ok := false } (pci_dev.sample 7)
      Kernel.init).2.held ≠ Kernel.init.held := by
  decide

theorem probe_loop_alloc_all_ok (env : Env) (pdev : pci_dev) (b : Nat) (n : Int) :
    ∀ (rem i : Nat) (iv : ivshmem) (s : Kernel),
      probe_loop_alloc (fun _ => true) env pdev b n rem i iv s =
        match probe_loop env pdev b n rem i iv s with
        | (none, iv', s') => (.completed, iv', s')
        | (some f, iv', s') => (.register_failed f, iv', s') := by
  intro rem
  induction rem with
  | zero => intro i iv s; rfl
  | succ rem ih =>
    intro i iv s
    rw [probe_loop_alloc, probe_loop]
    simp only [Bool.not_true, Bool.false_eq_true, if_false, if_true, kmalloc_try, kmalloc]
    by_cases h : (uio_register_device env i
        (pci_ioremap_bar i (acquire (.name i) (acquire (.uinfo i) s)))).1 ≠ 0
    · rw [if_pos h, if_pos h]
    · rw [if_neg h, if_neg h, ih]

theorem probe_alloc_all_ok (g : Globals) (env : Env) (pdev : pci_dev) (s : Kernel) :
    probe_alloc (fun _ => true) g env pdev s =
      (.returned (probe g env pdev s).1, (probe g env pdev s).2) := by
  unfold probe_alloc probe
  simp only [Bool.not_true, Bool.false_eq_true, if_false, kmalloc_try, if_true, kmalloc]
  split
  · simp [probe_error_alloc, probe_error, kfree_try]
  · split
    · simp [probe_error_alloc, probe_error, kfree_try]
    · split
      · simp [probe_error_release_alloc, probe_error_release, probe_error_alloc, probe_error,
          kfree_try]
      · rw [probe_loop_alloc_all_ok]
        split <;> rename_i heq <;> split at heq <;>
          simp_all [probe_error_uio, probe_error_release_alloc, probe_error_release,
            probe_error_alloc, probe_error, kfree_try]

/-- C18 (allocation failure), at failing inputs.  With allocations that may
return NULL, default endpoint count and every other call succeeding:
when the allocation of the device record fails, `probe` stores through the
NULL record (line 157); when the allocation of the endpoint array fails it
stores through the NULL array (line 180); when the allocation of the
descriptor of endpoint 0 fails it stores through the NULL descriptor (line
181).  In none of these cases does `probe` return, and everything acquired
so far stays held.  Only a NULL name leads to a reported failure, and then
the mapping, the descriptor and the vector stay held. -/
theorem C18_allocation_failure_is_not_handled :
    probe_alloc (fun r => decide (r ≠ .ivshmem)) Globals.init Env.good (pci_dev.sample 7)
        Kernel.init =
      (.null_access .ivshmem,
        ⟨[.uios], [.acquire .ivshmem false, .acquire .uios true], 0, false, none⟩) ∧
    (probe_alloc (fun r => decide (r ≠ .uios)) Globals.init Env.good (pci_dev.sample 7)
        Kernel.init).1 = .null_access .uios ∧
    (probe_alloc (fun r => decide (r ≠ .uios)) Globals.init Env.good (pci_dev.sample 7)
        Kernel.init).2.held = [.uinfo 0, .irq_vectors 1, .regions, .enabled, .ivshmem] ∧
    (probe_alloc (fun r => decide (r ≠ .uinfo 0)) Globals.init Env.good (pci_dev.sample 7)
        Kernel.init).1 = .null_access (.uinfo 0) ∧
    (probe_alloc (fun r => decide (r ≠ .uinfo 0)) Globals.init Env.good (pci_dev.sample 7)
        Kernel.init).2.held = [.name 0, .irq_vectors 1, .regions, .enabled, .uios, .ivshmem] ∧
    (probe_alloc (fun r => decide (r ≠ .name 0)) Globals.init Env.good (pci_dev.sample 7)
        Kernel.init).1 = .returned (-ENODEV) ∧
    (probe_alloc (fun r => decide (r ≠ .name 0)) Globals.init Env.good (pci_dev.sample 7)
        Kernel.init).2.held = [.mapping 0, .uinfo 0, .irq_vectors 1] := by
  decide

/-! ## Rounding to the page size (lines 169 and 188) -/

theorem land_high_mask (x k : Nat) (hk : k ≤ 64) (hx : x < 2 ^ 64) :
    x &&& (2 ^ 64 - 2 ^ k) = x / 2 ^ k * 2 ^ k := by
  have hmask : 2 ^ 64 - 2 ^ k = 2 ^ 64 - ((2 ^ k - 1) + 1) := by
    have : 0 < 2 ^ k := Nat.two_pow_pos k
    omega
  have hlt : 2 ^ k - 1 < 2 ^ 64 := by
    have : 2 ^ k ≤ 2 ^ 64 := Nat.pow_le_pow_right (by norm_num) hk
    have : 0 < 2 ^ k := Nat.two_pow_pos k
    omega
  apply Nat.eq_of_testBit_eq
  intro j
  rw [Nat.testBit_and, hmask, Nat.testBit_two_pow_sub_succ hlt, Nat.testBit_two_pow_sub_one,
    Nat.mul_comm, Nat.testBit_mul_pow_two, ← Nat.shiftRight_eq_div_pow, Nat.testBit_shiftRight]
  by_cases hjk : j < k
  · have : ¬ j ≥ k := by omega
    simp [hjk, this]
  · have hge : j ≥ k := by omega
    have hadd : k + (j - k) = j := by omega
    by_cases hj64 : j < 64
    · simp [hjk, hge, hj64, hadd]
    · have hxj : x.testBit j = false := by
        apply Nat.testBit_lt_two_pow
        exact lt_of_lt_of_le hx (Nat.pow_le_pow_right (by norm_num) (by omega))
      simp [hjk, hge, hj64, hadd, hxj]

theorem page_round_eq (env : Env) (len : Nat) (hs : env.page_shift < 64)
    (hl : len + PAGE_SIZE env - 1 < 2 ^ 64) :
    page_round env len = (len + PAGE_SIZE env - 1) / PAGE_SIZE env * PAGE_SIZE env := by
  unfold page_round PAGE_MASK
  rw [Nat.mod_eq_of_lt hl]
  unfold PAGE_SIZE at hl ⊢
  exact land_high_mask _ _ (by omega) hl

theorem round_up_least (P len : Nat) (hP : 0 < P) :
    P ∣ (len + P - 1) / P * P ∧ len ≤ (len + P - 1) / P * P ∧
    (∀ m, P ∣ m → len ≤ m → (len + P - 1) / P * P ≤ m) ∧
    (P ∣ len → (len + P - 1) / P * P = len) := by
  have hdm := Nat.div_add_mod (len + P - 1) P
  have hml := Nat.mod_lt (len + P - 1) hP
  have hcomm : P * ((len + P - 1) / P) = (len + P - 1) / P * P := Nat.mul_comm _ _
  have hleast : ∀ m, P ∣ m → len ≤ m → (len + P - 1) / P * P ≤ m := by
    intro m hm hle
    obtain ⟨q, rfl⟩ := hm
    rw [Nat.mul_comm P q]
    apply Nat.mul_le_mul_right
    rw [Nat.div_le_iff_le_mul_add_pred hP]
    have : P * q = q * P := Nat.mul_comm _ _
    have : P * q + (P - 1) = q * P + (P - 1) := by omega
    rw [Nat.mul_comm P q]
    omega
  refine ⟨Dvd.intro_left _ rfl, by omega, hleast, ?_⟩
  intro hdvd
  have h1 := hleast len hdvd (le_refl len)
  omega

/-- C19 (size rounding).  With `PAGE_SIZE = 2 ^ page_shift` representable in
`unsigned long` and `PAGE_MASK = ~(PAGE_SIZE - 1)`, for every region length
`len` with `len + PAGE_SIZE - 1` representable in `unsigned long` the size
`(len + PAGE_SIZE - 1) & PAGE_MASK` is a multiple of `PAGE_SIZE`, is at
least `len`, and is the least such multiple; it equals `len` when `len` is
a multiple of `PAGE_SIZE` and is 0 when `len` is 0; the mask used is the
64-bit complement of `PAGE_SIZE - 1`.  The size of the
register region of every endpoint and the shared-region size that `probe`
splits are both computed by this formula. -/
theorem C19_size_rounding (env : Env) (len : Nat) (hs : env.page_shift < 64)
    (hl : len + PAGE_SIZE env - 1 < 2 ^ 64) :
    PAGE_SIZE env ∣ page_round env len ∧ len ≤ page_round env len ∧
    (∀ m, PAGE_SIZE env ∣ m → len ≤ m → page_round env len ≤ m) ∧
    (PAGE_SIZE env ∣ len → page_round env len = len) ∧
    (len = 0 → page_round env len = 0) ∧
    PAGE_MASK env = 2 ^ 64 - 1 - (PAGE_SIZE env - 1) ∧
    (∀ (pdev : pci_dev) (n : Nat) (i : Nat),
      (make_uio env pdev (page_round env pdev.bar2_len) n i).uinfo.mem0.size =
        page_round env pdev.bar0_len ∧
      (make_uio env pdev (page_round env pdev.bar2_len) n i).uinfo.mem1.size =
        slice_size (page_round env pdev.bar2_len) n) := by
  have hP : 0 < PAGE_SIZE env := Nat.two_pow_pos _
  rw [page_round_eq env len hs hl]
  obtain ⟨a, b, c, d⟩ := round_up_least (PAGE_SIZE env) len hP
  refine ⟨a, b, c, d, ?_, ?_, fun pdev n i => ⟨rfl, rfl⟩⟩
  · intro h0
    subst h0
    exact d (Nat.dvd_zero _)
  · unfold PAGE_MASK
    omega

/-- C19 with 4 KiB pages and a region of 256 bytes. -/
theorem C19_size_rounding_witness :
    PAGE_SIZE Env.good ∣ page_round Env.good 256 ∧ 256 ≤ page_round Env.good 256 :=
  ⟨(C19_size_rounding Env.good 256 (by decide) (by decide)).1,
    (C19_size_rounding Env.good 256 (by decide) (by decide)).2.1⟩

/-- C20 (slices stay inside the shared region without wraparound).  For
every 64-bit `bar2_size`, every `num_uios` in 1..5 and every `i < num_uios`,
the `unsigned long` product `i * (bar2_size / num_uios)` does not overflow
and is the mathematical value, and `offset_i + size_i ≤ bar2_size`, so for
every base address the window `[bar2_addr + offset_i, bar2_addr + offset_i +
size_i)` lies within `[bar2_addr, bar2_addr + bar2_size)`; when the shared
region ends within the address space the address stored in the descriptor is
`bar2_addr + offset_i`; and when `bar2_size` is a non-zero multiple of a
page size of at least 5 every slice has a size greater than 0. -/
theorem C20_slices_inside_region (bar2_size n i : Nat) (hb : bar2_size < 2 ^ 64)
    (h1 : 1 ≤ n) (h5 : n ≤ 5) (hi : i < n) :
    slice_offset bar2_size n i = i * (bar2_size / n) ∧
    i * (bar2_size / n) < 2 ^ 64 ∧
    slice_offset bar2_size n i + slice_size bar2_size n ≤ bar2_size ∧
    (∀ bar2_addr : Nat, bar2_addr ≤ bar2_addr + slice_offset bar2_size n i ∧
      bar2_addr + slice_offset bar2_size n i + slice_size bar2_size n ≤
        bar2_addr + bar2_size) ∧
    (∀ (env : Env) (pdev : pci_dev), pdev.bar2_start < 2 ^ 64 →
      pdev.bar2_start + bar2_size ≤ 2 ^ 64 →
      (make_uio env pdev bar2_size n i).uinfo.mem1.addr =
        pdev.bar2_start + slice_offset bar2_size n i) ∧
    (∀ P k : Nat, 5 ≤ P → bar2_size = k * P → bar2_size ≠ 0 → 0 < slice_size bar2_size n) := by
  have ho := slice_offset_eq bar2_size n i hb h5 hi
  have hz := slice_size_eq bar2_size n h5
  have hmul : (i + 1) * (bar2_size / n) ≤ n * (bar2_size / n) := Nat.mul_le_mul_right _ hi
  have hexp : (i + 1) * (bar2_size / n) = i * (bar2_size / n) + bar2_size / n := by ring
  have hle : n * (bar2_size / n) ≤ bar2_size := Nat.mul_div_le bar2_size n
  have hin : slice_offset bar2_size n i + slice_size bar2_size n ≤ bar2_size := by
    rw [ho, hz]; omega
  refine ⟨ho, by omega, hin, fun a => ⟨by omega, by omega⟩, ?_, ?_⟩
  · intro env pdev hstart hend
    simp only [make_uio]
    apply Nat.mod_eq_of_lt
    rw [ho]
    rcases Nat.eq_zero_or_pos (bar2_size / n) with h0 | hpos
    · rw [h0]; simpa using hstart
    · rw [ho, hz] at hin
      omega
  · intro P k hP hk hne
    rw [hz]
    apply Nat.div_pos _ (by omega)
    have hkpos : 1 ≤ k := by
      rcases Nat.eq_zero_or_pos k with h0 | h0
      · rw [h0] at hk; simp at hk; exact absurd hk hne
      · exact h0
    have : 1 * P ≤ k * P := Nat.mul_le_mul_right _ hkpos
    omega

/-- C20 for a 1 MiB shared region, three endpoints and index 2. -/
theorem C20_slices_inside_region_witness :
    slice_offset 0x100000 ((3 : Nat) : Int) 2 = 2 * (0x100000 / 3) :=
  (C20_slices_inside_region 0x100000 3 2 (by decide) (by decide) (by decide) (by decide)).1

/-! ## Leading spaces (line 92) -/

theorem items_ne_nil : ∀ (s : List Char), items s ≠ [] := by
  intro s
  cases s with
  | nil => simp [items]
  | cons c s =>
    rw [items]
    split
    · simp
    · split <;> simp

theorem items_append_comma_gen : ∀ (a b : List Char),
    items (a ++ ',' :: b) = items a ++ items b := by
  intro a
  induction a with
  | nil => intro b; simp [items]
  | cons c a ih =>
    intro b
    by_cases hc : c = ','
    · simp [items, hc, ih]
    · rw [List.cons_append, items, if_neg hc, ih, items, if_neg hc]
      cases hia : items a with
      | nil => exact absurd hia (items_ne_nil a)
      | cons it its => simp

theorem items_spaces (m : Nat) (b : List Char) :
    ∃ it its, items b = it :: its ∧
      items (List.replicate m ' ' ++ b) = (List.replicate m ' ' ++ it) :: its := by
  induction m with
  | zero =>
    cases hib : items b with
    | nil => exact absurd hib (items_ne_nil b)
    | cons it its => exact ⟨it, its, rfl, by simp [hib]⟩
  | succ m ih =>
    obtain ⟨it, its, h1, h2⟩ := ih
    refine ⟨it, its, h1, ?_⟩
    rw [List.replicate_succ, List.cons_append, items, if_neg (by decide), h2]
    simp

theorem parse_entry_spaces (m : Nat) (it : List Char) :
    parse_entry (List.replicate m ' ' ++ it) = parse_entry it := by
  have : (List.replicate m ' ' ++ it).dropWhile (· = ' ') = it.dropWhile (· = ' ') := by
    induction m with
    | zero => simp
    | succ m ih =>
      rw [List.replicate_succ, List.cons_append, List.dropWhile_cons]
      simp [ih]
  unfold parse_entry
  rw [this]

theorem store_items_congr : ∀ (slots i : Nat) (its its' : List (List Char))
    (c : List ivshmem_region_config), its.map parse_entry = its'.map parse_entry →
    store_items slots i its c = store_items slots i its' c := by
  intro slots
  induction slots with
  | zero => intro i its its' c _; rfl
  | succ slots ih =>
    intro i its its' c h
    cases its with
    | nil =>
      cases its' with
      | nil => rfl
      | cons a' its' => simp at h
    | cons a its =>
      cases its' with
      | nil => simp at h
      | cons a' its' =>
        simp only [List.map_cons, List.cons.injEq] at h
        rw [store_items, store_items, h.1]
        cases parse_entry a' with
        | none => rfl
        | some e => exact ih (i + 1) its its' _ h.2

theorem parse_region_config_congr (t t' : List Char) (kstrdup_ok : Bool) (g : Globals)
    (h1 : t ≠ []) (h2 : t' ≠ [])
    (h : (items t).map parse_entry = (items t').map parse_entry) :
    parse_region_config (some t) kstrdup_ok g = parse_region_config (some t') kstrdup_ok g := by
  cases kstrdup_ok with
  | false => rw [parse_region_config_enomem t g h1, parse_region_config_enomem t' g h2]
  | true =>
    rw [parse_region_config_items t g h1, parse_region_config_items t' g h2,
      store_items_congr _ _ _ _ _ h]

/-- C15 (leading spaces are ignored).  For every configuration text and
every item of it, inserting any number of spaces at the start of the item
(at the start of the text for the first item, right after the preceding
comma for the others), hence before its key, changes only that item, and
changes neither the return value of `parse_region_config` nor the resulting
statics. -/
theorem C15_leading_spaces_ignored (m : Nat) (b : List Char) (kstrdup_ok : Bool)
    (g : Globals) :
    (b ≠ [] →
      parse_region_config (some (List.replicate m ' ' ++ b)) kstrdup_ok g =
        parse_region_config (some b) kstrdup_ok g) ∧
    (∀ a : List Char,
      parse_region_config (some (a ++ ',' :: (List.replicate m ' ' ++ b))) kstrdup_ok g =
        parse_region_config (some (a ++ ',' :: b)) kstrdup_ok g) ∧
    (∀ a : List Char, ∃ it its, items b = it :: its ∧
      config_items (a ++ ',' :: b) = items a ++ it :: its ∧
      config_items (a ++ ',' :: (List.replicate m ' ' ++ b)) =
        items a ++ (List.replicate m ' ' ++ it) :: its) := by
  obtain ⟨it, its, h1, h2⟩ := items_spaces m b
  have hci : ∀ x y : List Char, config_items (x ++ ',' :: y) = items (x ++ ',' :: y) := by
    intro x y
    cases x <;> rfl
  refine ⟨?_, ?_, ?_⟩
  · intro hb
    apply parse_region_config_congr _ _ _ _ (by simp [hb]) hb
    rw [h1, h2]
    simp [parse_entry_spaces]
  · intro a
    apply parse_region_config_congr _ _ _ _ (by simp) (by simp)
    rw [items_append_comma_gen, items_append_comma_gen, h1, h2]
    simp [parse_entry_spaces]
  · intro a
    refine ⟨it, its, h1, ?_, ?_⟩
    · rw [hci, items_append_comma_gen, h1]
    · rw [hci, items_append_comma_gen, h2]

/-! ## Parsing when the copy of the text may fail (lines 80-84) -/

/-- C7 as stated fails when the text cannot be copied: `4:6` is a text whose
first item is malformed, but with `kstrdup` returning NULL
`parse_region_config` returns `-ENOMEM` (-12), not `-EINVAL` (-22). -/
theorem C7_counterexample_copy_fails :
    (config_items "4:6".toList)[0]? = some "4:6".toList ∧
    malformed "4:6".toList = true ∧
    (parse_region_config (some "4:6".toList) false Globals.init).1 = -12 ∧
    -EINVAL = -22 ∧ -ENOMEM = -12 := by
  decide

/-- C7 (parse failure is all-or-nothing), amended.  For every configuration
text one of whose first 10 comma-separated items is malformed,
`parse_region_config` returns `-EINVAL` when the copy of the text succeeds
and `-ENOMEM` when `kstrdup` fails; in both cases it leaves `num_configs`
unchanged, so that at module load, where `num_configs` is 0, the table stays
empty and every later lookup resolves to the default 1, whatever was stored
in `configs` before the failing item.  `4:6` and `abc:2` are such texts. -/
theorem C7_parse_all_or_nothing (text : List Char) (kstrdup_ok : Bool) (g : Globals) (j : Nat)
    (it : List Char) (hj : j < 10) (hit : (config_items text)[j]? = some it)
    (hbad : malformed it = true) :
    (parse_region_config (some text) kstrdup_ok g).1 =
      (if kstrdup_ok = true then -EINVAL else -ENOMEM) ∧
    (parse_region_config (some text) kstrdup_ok g).2.num_configs = g.num_configs ∧
    (g.num_configs = 0 →
      (parse_region_config (some text) kstrdup_ok g).2.table = [] ∧
      ∀ key, probe_lookup (parse_region_config (some text) kstrdup_ok g).2.configs key
        (parse_region_config (some text) kstrdup_ok g).2.num_configs 0 = 1) ∧
    (malformed "4:6".toList = true ∧
      parse_region_config (some "4:6".toList) true Globals.init = (-EINVAL, Globals.init) ∧
      parse_region_config (some "4:6".toList) false Globals.init = (-ENOMEM, Globals.init)) ∧
    (malformed "abc:2".toList = true ∧
      parse_region_config (some "abc:2".toList) true Globals.init = (-EINVAL, Globals.init) ∧
      parse_region_config (some "abc:2".toList) false Globals.init =
        (-ENOMEM, Globals.init)) := by
  cases kstrdup_ok with
  | true =>
    obtain ⟨a, b, c, _, _⟩ := parse_error_copied text g j it hj hit hbad
    exact ⟨by simpa using a, b, c, by decide, by decide⟩
  | false =>
    rw [parse_region_config_enomem text g (config_items_ne_nil text j it hit).1]
    refine ⟨by simp, rfl, ?_, by decide, by decide⟩
    intro h0
    simp only [Globals.table, h0]
    exact ⟨by simp, fun key => rfl⟩

/-- C7 (amended) at the text `4:5,7:9`, the copy succeeding: the first item
is stored in `configs[0]`, the second is out of range. -/
theorem C7_parse_all_or_nothing_witness :
    (parse_region_config (some "4:5,7:9".toList) true Globals.init).1 =
      (if true = true then -EINVAL else -ENOMEM) :=
  (C7_parse_all_or_nothing "4:5,7:9".toList true Globals.init 1 "7:9".toList (by decide)
    (by decide) (by decide)).1

/-- C8 as stated fails when the text cannot be copied: `4:5,7:2` is the text
written from the entries `[{4,5},{7,2}]`, but with `kstrdup` returning NULL
`parse_region_config` returns `-ENOMEM` (-12) and the table stays empty. -/
theorem C8_counterexample_copy_fails :
    render [⟨4, 5⟩, ⟨7, 2⟩] = "4:5,7:2".toList ∧
    (parse_region_config (some "4:5,7:2".toList) false Globals.init).1 = -12 ∧
    (parse_region_config (some "4:5,7:2".toList) false Globals.init).2.table = [] :=
  ⟨by simp [render, render_entry, decimal, decimal_nat, digit_char], by decide, by decide⟩

/-- C8 (parse of a well-formed text), amended.  For every list of `k`
entries with `1 ≤ k ≤ 10`, each with a key in the `int` range and a count in
1..5, parsing the text that writes each entry as decimal key, colon, decimal
count and joins the items with commas returns 0 and yields a table of
length `k` equal to the given entries in textual order, provided the copy of
the text succeeds; when `kstrdup` fails the call returns `-ENOMEM` and leaves
the statics as they were.  With the copy succeeding `4:5,7:2` yields
`[{4,5},{7,2}]`.  The empty text returns 0, whatever `kstrdup` would do, and
leaves the empty table of module load. -/
theorem C8_parse_well_formed (es : List ivshmem_region_config) (kstrdup_ok : Bool)
    (g : Globals) (hg : g.configs.length = 10) (hk1 : 1 ≤ es.length) (hk10 : es.length ≤ 10)
    (hvalid : ∀ e ∈ es, -(2 ^ 31) ≤ e.region_id ∧ e.region_id < 2 ^ 31 ∧
      1 ≤ e.num_uios ∧ e.num_uios ≤ 5) :
    (kstrdup_ok = true →
      (parse_region_config (some (render es)) kstrdup_ok g).1 = 0 ∧
      (parse_region_config (some (render es)) kstrdup_ok g).2.num_configs = es.length ∧
      (parse_region_config (some (render es)) kstrdup_ok g).2.table = es) ∧
    (kstrdup_ok = false →
      parse_region_config (some (render es)) kstrdup_ok g = (-ENOMEM, g)) ∧
    (render [⟨4, 5⟩, ⟨7, 2⟩] = "4:5,7:2".toList ∧
      (parse_region_config (some "4:5,7:2".toList) true Globals.init).1 = 0 ∧
      (parse_region_config (some "4:5,7:2".toList) true Globals.init).2.table =
        [⟨4, 5⟩, ⟨7, 2⟩]) ∧
    ((∀ b, parse_region_config (some []) b Globals.init = (0, Globals.init)) ∧
      Globals.init.table = []) := by
  obtain ⟨a, b, c, d, e⟩ := parse_rendered_copied es g hg hk1 hk10 hvalid
  have hes : es ≠ [] := by
    intro h
    rw [h] at hk1
    simp at hk1
  refine ⟨?_, ?_, d, e⟩
  · intro hk
    subst hk
    exact ⟨a, b, c⟩
  · intro hk
    subst hk
    exact parse_region_config_enomem _ g (render_ne_nil es hes)

/-- C8 (amended) at the entries `[{-4,5},{70000,2}]`, the copy succeeding. -/
theorem C8_parse_well_formed_witness :
    (parse_region_config (some (render [⟨-4, 5⟩, ⟨70000, 2⟩])) true Globals.init).2.table =
      [⟨-4, 5⟩, ⟨70000, 2⟩] :=
  ((C8_parse_well_formed [⟨-4, 5⟩, ⟨70000, 2⟩] true Globals.init (by decide) (by decide)
    (by decide) (by decide)).1 rfl).2.2

/-- C9 as stated fails when the text cannot be copied: a text of eleven
well-formed items for which `kstrdup` returns NULL makes
`parse_region_config` return `-ENOMEM` (-12) with `num_configs` still 0, not
0 with a table of length 10. -/
theorem C9_counterexample_copy_fails :
    (config_items "1:1,2:2,3:3,4:4,5:5,6:1,7:2,8:3,9:4,10:5,11:1".toList).length = 11 ∧
    (config_items "1:1,2:2,3:3,4:4,5:5,6:1,7:2,8:3,9:4,10:5,11:1".toList).all
      (fun it => !malformed it) = true ∧
    (parse_region_config (some "1:1,2:2,3:3,4:4,5:5,6:1,7:2,8:3,9:4,10:5,11:1".toList) false
      Globals.init).1 = -12 ∧
    (parse_region_config (some "1:1,2:2,3:3,4:4,5:5,6:1,7:2,8:3,9:4,10:5,11:1".toList) false
      Globals.init).2.num_configs = 0 := by
  decide

/-- C9 (silent truncation), amended.  For every configuration text of more
than 10 items whose items are well formed, `parse_region_config` returns 0
when the copy of the text succeeds, and the resulting table then has length
exactly 10 and consists of the entries of the first 10 items in textual
order, the items from the eleventh on contributing no entry; when `kstrdup`
fails the call returns `-ENOMEM` and leaves the statics as they were. -/
theorem C9_silent_truncation (text : List Char) (kstrdup_ok : Bool) (g : Globals)
    (hg : g.configs.length = 10) (hlen : 10 < (config_items text).length)
    (hwf : ∀ it ∈ config_items text, malformed it = false) :
    (kstrdup_ok = true →
      (parse_region_config (some text) kstrdup_ok g).1 = 0 ∧
      (parse_region_config (some text) kstrdup_ok g).2.num_configs = 10 ∧
      (parse_region_config (some text) kstrdup_ok g).2.table.length = 10 ∧
      (parse_region_config (some text) kstrdup_ok g).2.table =
        ((config_items text).take 10).map item_entry) ∧
    (kstrdup_ok = false → parse_region_config (some text) kstrdup_ok g = (-ENOMEM, g)) := by
  refine ⟨?_, ?_⟩
  · intro hk
    subst hk
    exact parse_truncated_copied text g hg hlen hwf
  · intro hk
    subst hk
    apply parse_region_config_enomem
    intro h
    rw [h] at hlen
    simp [config_items] at hlen

/-- C9 (amended) at a text of eleven well-formed items, the copy succeeding. -/
theorem C9_silent_truncation_witness :
    (parse_region_config (some "1:1,2:2,3:3,4:4,5:5,6:1,7:2,8:3,9:4,10:5,11:1".toList) true
      Globals.init).2.num_configs = 10 :=
  ((C9_silent_truncation "1:1,2:2,3:3,4:4,5:5,6:1,7:2,8:3,9:4,10:5,11:1".toList true
    Globals.init (by decide) (by decide) (by decide)).1 rfl).2.1

end MultiUio
